import Mathlib

/-!
# Bit-level signal packing: `bit::Signal` and `bit::Buffer`

A shallow embedding of the C++ library in `inc/bit_base.h`, `src/bit_base.cpp`,
`inc/bit_signal.h` and `inc/bit_buffer.h`, and of the reference `reflect` of
`test/test_bit_base.cpp`.

Conventions of the embedding.

* Values of the fixed-width unsigned types are natural numbers; every place
  where the C++ narrows a value (an explicit `static_cast`, or the implicit
  conversion of an assignment) is written with `castU8`, `castU16` or
  `castU32`.  A `|=` between two bytes cannot leave the byte range and carries
  none.
* `std::size_t` is 64 bits wide and `BitPos`, `BitSize` range over it.  The
  `std::size_t` computations that can wrap are written with their wrap: the sum
  in `BYTE_SIZE`, the first `i--` of the extraction loop (`decrement`) and the
  byte position computed from it.  `(BitPos + 1) % 8` is the same with and
  without wrap, and `i + position()` in the insertion loop stays below `2^62`.
* A reference returned by an `operator[]` is a `Ref`: either a cell of the
  array or the overrun cell.  Reading and writing through it are `load` and
  `store`.
* The array marshalling helpers are those of the little-endian host build
  (`__BYTE_ORDER__ == __ORDER_LITTLE_ENDIAN__`).
-/

namespace bit

/-! ## Fixed-width conversions -/

/-- Conversion to `uint8_t`. -/
def castU8 (x : Nat) : Nat := x % 2 ^ 8

/-- Conversion to `uint16_t`. -/
def castU16 (x : Nat) : Nat := x % 2 ^ 16

/-- Conversion to `uint32_t`. -/
def castU32 (x : Nat) : Nat := x % 2 ^ 32

/-- Number of values of `std::size_t`. -/
def SIZE_MOD : Nat := 2 ^ 64

/-- Statement `i--` on a `std::size_t`: zero wraps to the largest value. -/
def decrement (i : Nat) : Nat := if i = 0 then SIZE_MOD - 1 else i - 1

/-! ## `bit_base.h` -/

def U08_BIT_COUNT : Nat := 8

def U16_BIT_COUNT : Nat := 16

def U08_BIT_MASK : Nat := 0x00FF

def U16_BIT_MASK : Nat := 0x0000FFFF

/-- Joins two bytes into a `uint16_t`, `u08_1` being the most significant. -/
def toU16 (u08_1 u08_0 : Nat) : Nat :=
  castU16 (castU16 (castU32 (castU32 u08_1 <<< U08_BIT_COUNT)) ||| castU16 u08_0)

/-- Most significant byte of a `uint16_t`. -/
def u16ToU08H (u16_0 : Nat) : Nat :=
  castU8 (castU32 u16_0 >>> U08_BIT_COUNT)

/-- Least significant byte of a `uint16_t`. -/
def u16ToU08L (u16_0 : Nat) : Nat :=
  castU8 (u16_0 &&& U08_BIT_MASK)

/-- Array form of a `uint16_t` (little-endian host build): high byte first. -/
def u16ToArray (u16_0 : Nat) (data : List Nat) : List Nat :=
  (data.set 0 (u16ToU08H u16_0)).set 1 (u16ToU08L u16_0)

/-- Reads a `uint16_t` back from its array form (little-endian host build). -/
def arrayToU16 (data : List Nat) : Nat :=
  toU16 (data.getD 0 0) (data.getD 1 0)

/-- Joins four bytes into a `uint32_t`, `u08_3` being the most significant. -/
def toU32 (u08_3 u08_2 u08_1 u08_0 : Nat) : Nat :=
  castU32 (castU32 (castU32 u08_3 <<< (U16_BIT_COUNT + U08_BIT_COUNT)) |||
    castU32 (castU32 u08_2 <<< U16_BIT_COUNT) |||
    castU32 (castU32 u08_1 <<< U08_BIT_COUNT) |||
    castU32 u08_0)

/-- Most significant half of a `uint32_t`. -/
def u32ToU16H (u32_0 : Nat) : Nat :=
  castU16 (u32_0 >>> U16_BIT_COUNT)

/-- Least significant half of a `uint32_t`. -/
def u32ToU16L (u32_0 : Nat) : Nat :=
  castU16 (u32_0 &&& U16_BIT_MASK)

/-- Array form of a `uint32_t` (little-endian host build): most significant
byte first. -/
def u32ToArray (u32_0 : Nat) (data : List Nat) : List Nat :=
  let w0 := u32ToU16L u32_0
  let w1 := u32ToU16H u32_0
  (((data.set 0 (u16ToU08H w1)).set 1 (u16ToU08L w1)).set 2 (u16ToU08H w0)).set 3 (u16ToU08L w0)

/-- Reads a `uint32_t` back from its array form (little-endian host build). -/
def arrayToU32 (data : List Nat) : Nat :=
  toU32 (data.getD 0 0) (data.getD 1 0) (data.getD 2 0) (data.getD 3 0)

/-- Enumeration `Parity`. -/
inductive Parity where
  | Even
  | Odd
  deriving DecidableEq, Repr

/-- Value of an enumerator of `Parity` (`Even = 0`, `Odd = 1`). -/
def Parity.toNat : Parity → Nat
  | .Even => 0
  | .Odd => 1

/-- Overload `toU32(const uint16_t, const uint16_t)`: joins two halves,
`u16_1` being the most significant. -/
def toU32_u16 (u16_1 u16_0 : Nat) : Nat :=
  castU32 (castU32 (castU32 u16_1 <<< U16_BIT_COUNT) ||| castU32 u16_0)

/-! ## `bit_base.cpp` -/

/-- Pre-calculated bit reversed table. -/
def reflectBitTable : List Nat :=
  [
    0x00, 0x80, 0x40, 0xC0, 0x20, 0xA0, 0x60, 0xE0,
    0x10, 0x90, 0x50, 0xD0, 0x30, 0xB0, 0x70, 0xF0,
    0x08, 0x88, 0x48, 0xC8, 0x28, 0xA8, 0x68, 0xE8,
    0x18, 0x98, 0x58, 0xD8, 0x38, 0xB8, 0x78, 0xF8,
    0x04, 0x84, 0x44, 0xC4, 0x24, 0xA4, 0x64, 0xE4,
    0x14, 0x94, 0x54, 0xD4, 0x34, 0xB4, 0x74, 0xF4,
    0x0C, 0x8C, 0x4C, 0xCC, 0x2C, 0xAC, 0x6C, 0xEC,
    0x1C, 0x9C, 0x5C, 0xDC, 0x3C, 0xBC, 0x7C, 0xFC,
    0x02, 0x82, 0x42, 0xC2, 0x22, 0xA2, 0x62, 0xE2,
    0x12, 0x92, 0x52, 0xD2, 0x32, 0xB2, 0x72, 0xF2,
    0x0A, 0x8A, 0x4A, 0xCA, 0x2A, 0xAA, 0x6A, 0xEA,
    0x1A, 0x9A, 0x5A, 0xDA, 0x3A, 0xBA, 0x7A, 0xFA,
    0x06, 0x86, 0x46, 0xC6, 0x26, 0xA6, 0x66, 0xE6,
    0x16, 0x96, 0x56, 0xD6, 0x36, 0xB6, 0x76, 0xF6,
    0x0E, 0x8E, 0x4E, 0xCE, 0x2E, 0xAE, 0x6E, 0xEE,
    0x1E, 0x9E, 0x5E, 0xDE, 0x3E, 0xBE, 0x7E, 0xFE,
    0x01, 0x81, 0x41, 0xC1, 0x21, 0xA1, 0x61, 0xE1,
    0x11, 0x91, 0x51, 0xD1, 0x31, 0xB1, 0x71, 0xF1,
    0x09, 0x89, 0x49, 0xC9, 0x29, 0xA9, 0x69, 0xE9,
    0x19, 0x99, 0x59, 0xD9, 0x39, 0xB9, 0x79, 0xF9,
    0x05, 0x85, 0x45, 0xC5, 0x25, 0xA5, 0x65, 0xE5,
    0x15, 0x95, 0x55, 0xD5, 0x35, 0xB5, 0x75, 0xF5,
    0x0D, 0x8D, 0x4D, 0xCD, 0x2D, 0xAD, 0x6D, 0xED,
    0x1D, 0x9D, 0x5D, 0xDD, 0x3D, 0xBD, 0x7D, 0xFD,
    0x03, 0x83, 0x43, 0xC3, 0x23, 0xA3, 0x63, 0xE3,
    0x13, 0x93, 0x53, 0xD3, 0x33, 0xB3, 0x73, 0xF3,
    0x0B, 0x8B, 0x4B, 0xCB, 0x2B, 0xAB, 0x6B, 0xEB,
    0x1B, 0x9B, 0x5B, 0xDB, 0x3B, 0xBB, 0x7B, 0xFB,
    0x07, 0x87, 0x47, 0xC7, 0x27, 0xA7, 0x67, 0xE7,
    0x17, 0x97, 0x57, 0xD7, 0x37, 0xB7, 0x77, 0xF7,
    0x0F, 0x8F, 0x4F, 0xCF, 0x2F, 0xAF, 0x6F, 0xEF,
    0x1F, 0x9F, 0x5F, 0xDF, 0x3F, 0xBF, 0x7F, 0xFF
  ]

/-- Operator `~` on a `uint32_t`. -/
def notU32 (x : Nat) : Nat := 0xFFFFFFFF - castU32 x

/-- Two's complement of the input data, over `uint32_t`. -/
def twosComplement (data : Nat) : Nat :=
  castU32 (castU32 (notU32 (castU32 data)) + castU32 1)

/-- Table local to `lsbPos`. -/
def deBruijnBitPositionTable : List Int :=
  [
     0,  1, 28,  2, 29, 14, 24, 3,
    30, 22, 20, 15, 25, 17,  4, 8,
    31, 27, 13, 23, 21, 19, 16, 7,
    26, 12, 18,  6, 11,  5, 10, 9
  ]

/-- Constant local to `lsbPos`. -/
def deBruijnSeq : Nat := 0x077CB531

/-- Position of the least significant set bit of a `uint32_t` (0-31), `-1` if
no bit is set.  The product is a `uint32_t` product; the index is below 32, so
the default of the table lookup is never used. -/
def lsbPos (data : Nat) : Int :=
  if data ≠ 0 then
    let lsb := data &&& twosComplement data
    let index := castU32 (lsb * deBruijnSeq) >>> 27
    deBruijnBitPositionTable.getD index 0
  else
    -1

/-- Overload `reflect(const uint8_t)`: table lookup.  The argument is a byte,
so the default of the lookup is never used. -/
def reflect (data : Nat) : Nat :=
  reflectBitTable.getD data 0

/-- Overload `reflect(const uint16_t, const bool)`. -/
def reflectU16 (data : Nat) (isLsbFirst : Bool) : Nat :=
  let b0 := u16ToU08L data
  let b1 := u16ToU08H data
  if isLsbFirst then
    toU16 (reflectBitTable.getD b1 0) (reflectBitTable.getD b0 0)
  else
    toU16 (reflectBitTable.getD b0 0) (reflectBitTable.getD b1 0)

/-- Overload `reflect(const uint32_t, const bool)`. -/
def reflectU32 (data : Nat) (isLsbFirst : Bool) : Nat :=
  let w0 := u32ToU16L data
  let w1 := u32ToU16H data
  let b0 := u16ToU08L w0
  let b1 := u16ToU08H w0
  let b2 := u16ToU08L w1
  let b3 := u16ToU08H w1
  if isLsbFirst then
    toU32 (reflectBitTable.getD b3 0) (reflectBitTable.getD b2 0)
      (reflectBitTable.getD b1 0) (reflectBitTable.getD b0 0)
  else
    toU32 (reflectBitTable.getD b0 0) (reflectBitTable.getD b1 0)
      (reflectBitTable.getD b2 0) (reflectBitTable.getD b3 0)

/-- Pre-calculated parity of every byte value. -/
def parityTable : List Nat :=
  [
    0, 1, 1, 0, 1, 0, 0, 1,
    1, 0, 0, 1, 0, 1, 1, 0,
    1, 0, 0, 1, 0, 1, 1, 0,
    0, 1, 1, 0, 1, 0, 0, 1,
    1, 0, 0, 1, 0, 1, 1, 0,
    0, 1, 1, 0, 1, 0, 0, 1,
    0, 1, 1, 0, 1, 0, 0, 1,
    1, 0, 0, 1, 0, 1, 1, 0,
    1, 0, 0, 1, 0, 1, 1, 0,
    0, 1, 1, 0, 1, 0, 0, 1,
    0, 1, 1, 0, 1, 0, 0, 1,
    1, 0, 0, 1, 0, 1, 1, 0,
    0, 1, 1, 0, 1, 0, 0, 1,
    1, 0, 0, 1, 0, 1, 1, 0,
    1, 0, 0, 1, 0, 1, 1, 0,
    0, 1, 1, 0, 1, 0, 0, 1,
    1, 0, 0, 1, 0, 1, 1, 0,
    0, 1, 1, 0, 1, 0, 0, 1,
    0, 1, 1, 0, 1, 0, 0, 1,
    1, 0, 0, 1, 0, 1, 1, 0,
    0, 1, 1, 0, 1, 0, 0, 1,
    1, 0, 0, 1, 0, 1, 1, 0,
    1, 0, 0, 1, 0, 1, 1, 0,
    0, 1, 1, 0, 1, 0, 0, 1,
    0, 1, 1, 0, 1, 0, 0, 1,
    1, 0, 0, 1, 0, 1, 1, 0,
    1, 0, 0, 1, 0, 1, 1, 0,
    0, 1, 1, 0, 1, 0, 0, 1,
    1, 0, 0, 1, 0, 1, 1, 0,
    0, 1, 1, 0, 1, 0, 0, 1,
    0, 1, 1, 0, 1, 0, 0, 1,
    1, 0, 0, 1, 0, 1, 1, 0
  ]

/-- Function `parity`: the local array `b` is filled by `u32ToArray`, which
assigns all four of its cells. -/
def parity (data : Nat) (parity : Parity) : Nat :=
  let b := u32ToArray data (List.replicate 4 0)
  let result :=
    castU8 (parityTable.getD (b.getD 3 0) 0 ^^^
      parityTable.getD (b.getD 2 0) 0 ^^^
      parityTable.getD (b.getD 1 0) 0 ^^^
      parityTable.getD (b.getD 0 0) 0)
  castU8 (result ^^^ castU8 parity.toNat)

/-- Number of set bits among the `n` low bits of a value. -/
def popCountLow (n x : Nat) : Nat :=
  ((List.range n).filter (fun i => x.testBit i)).length

/-- Number of set bits of a 32-bit value. -/
def popCount32 (x : Nat) : Nat :=
  popCountLow 32 x

/-! ## `test_bit_base.cpp` -/

namespace TestBitBase

/-- The `for (data >>= 1; data; data >>= 1)` loop of the reference `reflect`
of the test file, entered after the initial `data >>= 1`: the final `r` and
`s`, or `none` when the passes allowed run out.  `r` is a `u32`, `s` an `int`. -/
def reflectLoop : Nat → Nat → Nat → Int → Option (Nat × Int)
  | 0, _, _, _ => none
  | fuel + 1, data, r, s =>
    if data ≠ 0 then
      reflectLoop fuel (castU8 (data >>> 1)) (castU32 (castU32 (r <<< 1) ||| (data &&& 1))) (s - 1)
    else
      some (r, s)

/-- Reference `reflect(u08)` of the test file: the shift loop.  A byte is
exhausted after at most seven shifts, so eight passes are allowed. -/
def reflect (data : Nat) : Option Nat :=
  (reflectLoop 8 (castU8 (data >>> 1)) (castU32 data) (1 * 8 - 1)).map
    (fun p => castU8 (castU32 (p.1 <<< p.2.toNat)))

end TestBitBase

/-! ## `bit_signal.h` -/

/-- Value types `T` a `Signal<T, BitPos, BitSize>` is instantiated with. -/
inductive Ty where
  | bool
  | u8
  | i8
  | u16
  | i16
  | u32
  | i32
  | f32
  | f64
  | bytes (n : Nat)
  deriving DecidableEq, Repr

/-- Result of `sizeof(T)`. -/
def Ty.sizeof : Ty → Nat
  | .bool => 1
  | .u8 => 1
  | .i8 => 1
  | .u16 => 2
  | .i16 => 2
  | .u32 => 4
  | .i32 => 4
  | .f32 => 4
  | .f64 => 8
  | .bytes n => n

/-- Reference handed out by an `operator[]`: a cell of the array, or the
overrun cell. -/
inductive Ref where
  | data (i : Nat)
  | overrun
  deriving DecidableEq, Repr

/-- State of a `Signal<T, BitPos, BitSize>` object, with its template
arguments.  `mData` is the array `uint8_t mData[sizeof(T)]`. -/
structure Signal where
  T : Ty
  BitPos : Nat
  BitSize : Nat
  mOverrunData : Nat
  mData : List Nat
  deriving DecidableEq, Repr

namespace Signal

/-- Constructor `Signal()`: storage zero-initialised. -/
def ctor (T : Ty) (BitPos BitSize : Nat) : Signal :=
  { T := T, BitPos := BitPos, BitSize := BitSize, mOverrunData := 0,
    mData := List.replicate T.sizeof 0 }

/-- Method `Signal::clear`. -/
def clear (s : Signal) : Signal :=
  { s with mOverrunData := 0, mData := List.replicate s.T.sizeof 0 }

/-- Expansion of the `typeBitSize(T)` preprocessor definition. -/
def typeBitSize (s : Signal) : Nat :=
  if s.T = Ty.bool then 1 else s.BitSize

def BIT_MAX_POS : Nat := U08_BIT_COUNT - 1

def BIT_OFFSET (s : Signal) : Nat := s.BitPos % U08_BIT_COUNT

def BYTE_SIZE (s : Signal) : Nat :=
  ((s.BIT_OFFSET + s.typeBitSize + BIT_MAX_POS) % SIZE_MOD) / U08_BIT_COUNT

def position (s : Signal) : Nat := s.BitPos / U08_BIT_COUNT

def sizeInBuffer (s : Signal) : Nat := s.BYTE_SIZE

def typeSize (s : Signal) : Nat := s.T.sizeof

def writeLShift (s : Signal) : Nat := (s.BitPos + 1) % U08_BIT_COUNT

def writeRShift (s : Signal) : Nat := (U08_BIT_COUNT - s.writeLShift) % U08_BIT_COUNT

def readRShift (s : Signal) : Nat := (s.BitPos + 1) % U08_BIT_COUNT

def readLShift (s : Signal) : Nat := (U08_BIT_COUNT - s.readRShift) % U08_BIT_COUNT

/-- Method `Signal::operator[]`: the cell the returned reference designates. -/
def index (s : Signal) (i : Nat) : Ref :=
  if i < s.T.sizeof then Ref.data i else Ref.overrun

/-- Reading through a reference into the signal. -/
def load (s : Signal) : Ref → Nat
  | .data i => s.mData.getD i 0
  | .overrun => s.mOverrunData

/-- Writing through a reference into the signal. -/
def store (s : Signal) : Ref → Nat → Signal
  | .data i, x => { s with mData := s.mData.set i x }
  | .overrun, x => { s with mOverrunData := x }

/-- Statement `signal[i] |= x`. -/
def orAt (s : Signal) (i x : Nat) : Signal :=
  s.store (s.index i) (s.load (s.index i) ||| x)

/-- Method `Signal::bitMaskShift`, for `BitSize <= 8 * sizeof(T)`; beyond that
the C++ subtraction wraps and the shifts by it are undefined.  At `BitSize = 0`
it is the full width of `T`, and a shift of a `uint32_t` by 32 is undefined
too: `write_` and `read_` below describe the program for
`1 <= BitSize <= 8 * sizeof(T)`. -/
def bitMaskShift (s : Signal) : Nat := s.T.sizeof * U08_BIT_COUNT - s.BitSize

/-- Overload `write_(const uint8_t&)`. -/
def write_u8 (s : Signal) (value : Nat) : Signal :=
  { s with mData := s.mData.set 0 (castU8 (value <<< s.bitMaskShift)) }

/-- Overload `read_(uint8_t&)`. -/
def read_u8 (s : Signal) : Nat :=
  castU8 (s.mData.getD 0 0 >>> s.bitMaskShift)

/-- Overload `write_(const uint16_t&)`. -/
def write_u16 (s : Signal) (value : Nat) : Signal :=
  let data := castU16 (value <<< s.bitMaskShift)
  { s with mData := u16ToArray data s.mData }

/-- Overload `read_(uint16_t&)`. -/
def read_u16 (s : Signal) : Nat :=
  let data := arrayToU16 s.mData
  castU16 (data >>> s.bitMaskShift)

/-- Overload `write_(const uint32_t&)`. -/
def write_u32 (s : Signal) (value : Nat) : Signal :=
  let data := castU32 (value <<< s.bitMaskShift)
  { s with mData := u32ToArray data s.mData }

/-- Overload `read_(uint32_t&)`. -/
def read_u32 (s : Signal) : Nat :=
  let data := arrayToU32 s.mData
  castU32 (data >>> s.bitMaskShift)

/-- Overload `write_(const bool&)`. -/
def write_bool (s : Signal) (value : Bool) : Signal :=
  { s with mData := s.mData.set 0 (reflect (castU8 value.toNat)) }

/-- Overload `read_(bool&)`. -/
def read_bool (s : Signal) : Bool :=
  decide (reflect (castU8 (s.mData.getD 0 0 &&& 0x80)) ≠ 0)

/-- Method `Signal::write` for the unsigned integer value types: the overload
of `write_` selected by `T`.  Values of the other types are not natural
numbers (for `bool` see `write_bool`); there the result is `none`. -/
def write (s : Signal) (value : Nat) : Option Signal :=
  match s.T with
  | .u8 => some (s.write_u8 value)
  | .u16 => some (s.write_u16 value)
  | .u32 => some (s.write_u32 value)
  | _ => none

/-- Method `Signal::read` for the unsigned integer value types: the overload
of `read_` selected by `T`.  Values of the other types are not natural
numbers (for `bool` see `read_bool`); there the result is `none`. -/
def read (s : Signal) : Option Nat :=
  match s.T with
  | .u8 => some s.read_u8
  | .u16 => some s.read_u16
  | .u32 => some s.read_u32
  | _ => none

/-- The word held in `mData`, `mData[0]` being its most significant byte: the
value `read_` assembles before its right shift (for `uint8_t`, `mData[0]`
itself). -/
def storedWord (s : Signal) : Nat :=
  s.mData.foldl (fun acc byte => acc * 256 + byte) 0

end Signal

/-! ## `bit_buffer.h` -/

/-- Enumeration `Buffer::Status`. -/
inductive Status where
  | Ok
  | Overflow
  deriving DecidableEq, Repr

/-- State of a `Buffer<Size>` object.  `mBuffer` is the array
`uint8_t mBuffer[Size]`, so `Size` is its length. -/
structure Buffer where
  mOverrunData : Nat
  mStatus : Status
  mBuffer : List Nat
  deriving DecidableEq, Repr

namespace Buffer

/-- Constructor `Buffer()` of `Buffer<Size>`. -/
def ctor (Size : Nat) : Buffer :=
  { mOverrunData := 0, mStatus := Status.Ok, mBuffer := List.replicate Size 0 }

/-- Method `Buffer::size`. -/
def size (b : Buffer) : Nat := b.mBuffer.length

/-- Method `Buffer::status`. -/
def status (b : Buffer) : Status := b.mStatus

/-- Method `Buffer::clear`. -/
def clear (b : Buffer) : Buffer :=
  { mOverrunData := 0, mStatus := Status.Ok, mBuffer := List.replicate b.size 0 }

/-- Method `Buffer::operator[]`: the buffer after the call and the cell the
returned reference designates. -/
def index (b : Buffer) (i : Nat) : Buffer × Ref :=
  if i < b.size then (b, Ref.data i) else ({ b with mStatus := Status.Overflow }, Ref.overrun)

/-- Reading through a reference into the buffer. -/
def load (b : Buffer) : Ref → Nat
  | .data i => b.mBuffer.getD i 0
  | .overrun => b.mOverrunData

/-- Writing through a reference into the buffer. -/
def store (b : Buffer) : Ref → Nat → Buffer
  | .data i, x => { b with mBuffer := b.mBuffer.set i x }
  | .overrun, x => { b with mOverrunData := x }

/-- Expression `(*this)[pos]` read as a value: the buffer after the call and
the byte read. -/
def readAt (b : Buffer) (pos : Nat) : Buffer × Nat :=
  ((b.index pos).1, (b.index pos).1.load (b.index pos).2)

/-- Statement `(*this)[pos] |= x`. -/
def orAt (b : Buffer) (pos x : Nat) : Buffer :=
  (b.index pos).1.store (b.index pos).2 ((b.index pos).1.load (b.index pos).2 ||| x)

/-- One pass through the body of the `do` loop of `operator<<`, up to and
excluding `i++`: the buffer and `rem` after it. -/
def insertBody (signal : Signal) (i rem : Nat) (b : Buffer) : Buffer × Nat :=
  let byte := if i < signal.typeSize then signal.load (signal.index i) else 0
  let shiftR := signal.writeRShift
  let pos := i + signal.position
  let b1 :=
    if rem = 0 then b.orAt pos (castU8 (byte >>> shiftR))
    else (b.orAt pos rem).orAt pos (castU8 (byte >>> shiftR))
  let shiftL := signal.writeLShift
  let rem1 := if shiftL ≠ 0 then castU8 (byte <<< shiftL) else rem
  (b1, rem1)

/-- The `do ... while (i < signal.sizeInBuffer())` loop of `operator<<`,
entered with the given `i` and `rem`. -/
def insertLoop (signal : Signal) (i rem : Nat) (b : Buffer) : Buffer :=
  if i + 1 < signal.sizeInBuffer then
    insertLoop signal (i + 1) (insertBody signal i rem b).2 (insertBody signal i rem b).1
  else
    (insertBody signal i rem b).1
termination_by signal.sizeInBuffer - i

/-- Method `Buffer::operator<<`: inserts the signal into the buffer. -/
def insert (b : Buffer) (signal : Signal) : Buffer :=
  insertLoop signal 0 0 b

/-- One pass through the body of the `do` loop of `operator>>` for the value
`i` has after `i--`: the buffer, the signal and `rem` after it. -/
def extractBody (i rem : Nat) (b : Buffer) (signal : Signal) : Buffer × Signal × Nat :=
  let pos := (i + signal.position) % SIZE_MOD
  let b1 := (b.readAt pos).1
  let byte := (b.readAt pos).2
  let signal1 :=
    if i < signal.typeSize then
      let shiftL := signal.readLShift
      if rem = 0 then signal.orAt i (castU8 (byte <<< shiftL))
      else (signal.orAt i rem).orAt i (castU8 (byte <<< shiftL))
    else signal
  let shiftR := signal.readRShift
  let rem1 := if shiftR ≠ 0 then castU8 (byte >>> shiftR) else rem
  (b1, signal1, rem1)

/-- The `do ... while (i > 0)` loop of `operator>>`, from the pass in which
`i` has the given value after `i--`.  Later passes decrement a positive `i`,
so the recursion is on `i`. -/
def extractLoop : Nat → Nat → Buffer → Signal → Buffer × Signal
  | 0, rem, b, signal =>
    ((extractBody 0 rem b signal).1, (extractBody 0 rem b signal).2.1)
  | i + 1, rem, b, signal =>
    extractLoop i (extractBody (i + 1) rem b signal).2.2
      (extractBody (i + 1) rem b signal).1 (extractBody (i + 1) rem b signal).2.1

/-- Method `Buffer::operator>>`: extracts the signal from the buffer.  The
first `i--` acts on `signal.sizeInBuffer()` and wraps when that is zero. -/
def extract (b : Buffer) (signal : Signal) : Buffer × Signal :=
  extractLoop (decrement signal.sizeInBuffer) 0 b signal

/-- The loop of `operator<<` unrolled: `k` passes through the body starting
at index `i`.  A proof device: `insert_eq_insertIter` shows that `operator<<`
makes exactly `max 1 sizeInBuffer` passes. -/
def insertIter (signal : Signal) : Nat → Nat → Nat → Buffer → Buffer
  | 0, _, _, b => b
  | k + 1, i, rem, b =>
    insertIter signal k (i + 1) (insertBody signal i rem b).2 (insertBody signal i rem b).1

/-- Calls a client can make on a buffer object, `clear()` left out. -/
inductive Op where
  | index (i : Nat)
  | assign (i x : Nat)
  | insert (signal : Signal)
  | extract (signal : Signal)
  | status
  | size

/-- Effect of one call on the buffer: `b[i]`, `b[i] = x`, `b << signal`,
`b >> signal`, `b.status()`, `b.size()`. -/
def step (b : Buffer) : Op → Buffer
  | .index i => (b.index i).1
  | .assign i x => (b.index i).1.store (b.index i).2 x
  | .insert signal => b.insert signal
  | .extract signal => (b.extract signal).1
  | .status => b
  | .size => b

/-- Effect of a sequence of calls, first call first. -/
def run (b : Buffer) (ops : List Op) : Buffer :=
  ops.foldl step b

/-- Source byte of pass `i` of the insertion: `S[i]` if `i < S.typeSize()`,
else 0. -/
def insertSrc (signal : Signal) (i : Nat) : Nat :=
  if i < signal.typeSize then signal.load (signal.index i) else 0

/-- Carried remainder of the insertion closed form: `carry(0) = 0` and, for
`i >= 1`, `(src(i-1) << L) mod 256` if `L != 0` and 0 if `L = 0`. -/
def insertCarry (signal : Signal) (i : Nat) : Nat :=
  if i = 0 then 0
  else if signal.writeLShift ≠ 0 then
    (insertSrc signal (i - 1) <<< signal.writeLShift) % 256
  else 0

/-- Carried remainder of the extraction closed form for a buffer `b`:
`carry(n-1) = 0` and, for `i < n-1`, `buf[position+i+1] >> R` if `R != 0` and 0
if `R = 0`. -/
def extractCarry (b : Buffer) (signal : Signal) (i : Nat) : Nat :=
  if i + 1 = signal.sizeInBuffer then 0
  else if signal.readRShift ≠ 0 then
    b.mBuffer.getD (signal.position + i + 1) 0 >>> signal.readRShift
  else 0

/-- Values of `i` at which the body of the loop of `operator<<` runs, in
order, when the loop is entered with the given `i`: same control as
`insertLoop`. -/
def insertPasses (signal : Signal) (i : Nat) : List Nat :=
  if i + 1 < signal.sizeInBuffer then i :: insertPasses signal (i + 1) else [i]
termination_by signal.sizeInBuffer - i

/-- Values of `i` (after `i--`) at which the body of the loop of `operator>>`
runs, in order, from the pass with the given value: same control as
`extractLoop`. -/
def extractPasses : Nat → List Nat
  | 0 => [0]
  | i + 1 => (i + 1) :: extractPasses i

end Buffer

/-! ## Auxiliary facts -/

theorem getD_set (l : List Nat) (i j x : Nat) :
    (l.set i x).getD j 0 = if j = i ∧ i < l.length then x else l.getD j 0 := by
  simp only [List.getD_eq_getElem?_getD, List.getElem?_set]
  by_cases h : i = j
  · subst h
    by_cases h2 : i < l.length
    · simp [h2]
    · simp [h2]
      simp at h2
      simp [List.getElem?_eq_none h2]
  · have : ¬ j = i := fun e => h e.symm
    simp [h, this]

theorem lor_eq_add (k a b : Nat) (ha : a % 2 ^ k = 0) (hb : b < 2 ^ k) : a ||| b = a + b := by
  have h := Nat.mul_add_lt_is_or hb (a / 2 ^ k)
  have h2 : 2 ^ k * (a / 2 ^ k) = a := by
    have := Nat.div_add_mod a (2 ^ k)
    omega
  rw [h2] at h
  exact h.symm

theorem land_255 (x : Nat) : x &&& 255 = x % 256 :=
  Nat.and_pow_two_sub_one_eq_mod x 8

theorem land_65535 (x : Nat) : x &&& 65535 = x % 65536 :=
  Nat.and_pow_two_sub_one_eq_mod x 16

theorem lor_land_self (a x : Nat) : (a ||| x) &&& a = a := by
  apply Nat.eq_of_testBit_eq
  intro i
  simp only [Nat.testBit_and, Nat.testBit_or]
  cases a.testBit i <;> simp

theorem land_trans {a b c : Nat} (h1 : c &&& b = b) (h2 : b &&& a = a) : c &&& a = a := by
  rw [← h2, ← Nat.land_assoc, h1]

theorem shl_mod_shr (w B v : Nat) (hB : B ≤ w) :
    ((v <<< (w - B)) % 2 ^ w) >>> (w - B) = v % 2 ^ B := by
  rw [Nat.shiftLeft_eq, Nat.shiftRight_eq_div_pow]
  have hw : 2 ^ w = 2 ^ B * 2 ^ (w - B) := by
    rw [← Nat.pow_add]; congr 1; omega
  rw [hw, Nat.mul_mod_mul_right]
  exact Nat.mul_div_cancel _ (Nat.pos_pow_of_pos _ (by decide))

theorem toU16_eq (h l : Nat) (hh : h < 256) (hl : l < 256) : toU16 h l = h * 256 + l := by
  simp only [toU16, U08_BIT_COUNT, castU16, castU32, Nat.shiftLeft_eq]
  rw [lor_eq_add 8 _ _ (by omega) (by omega)]
  omega

theorem toU32_eq (b3 b2 b1 b0 : Nat) (h3 : b3 < 256) (h2 : b2 < 256) (h1 : b1 < 256)
    (h0 : b0 < 256) :
    toU32 b3 b2 b1 b0 = b3 * 16777216 + b2 * 65536 + b1 * 256 + b0 := by
  simp only [toU32, U08_BIT_COUNT, U16_BIT_COUNT, castU32, Nat.shiftLeft_eq]
  have e1 : b3 % 2 ^ 32 * 2 ^ (16 + 8) % 2 ^ 32 ||| b2 % 2 ^ 32 * 2 ^ 16 % 2 ^ 32 =
      b3 * 16777216 + b2 * 65536 := by
    rw [lor_eq_add 24 _ _ (by omega) (by omega)]
    omega
  rw [e1]
  have e2 : b3 * 16777216 + b2 * 65536 ||| b1 % 2 ^ 32 * 2 ^ 8 % 2 ^ 32 =
      b3 * 16777216 + b2 * 65536 + b1 * 256 := by
    rw [lor_eq_add 16 _ _ (by omega) (by omega)]
    omega
  rw [e2]
  rw [lor_eq_add 8 _ _ (by omega) (by omega)]
  omega

theorem u16ToU08H_lt (d : Nat) : u16ToU08H d < 256 := by
  simp only [u16ToU08H, castU8]; omega

theorem u16ToU08L_lt (d : Nat) : u16ToU08L d < 256 := by
  simp only [u16ToU08L, castU8]; omega

theorem toU16_split (d : Nat) (hd : d < 2 ^ 16) : toU16 (u16ToU08H d) (u16ToU08L d) = d := by
  rw [toU16_eq _ _ (u16ToU08H_lt d) (u16ToU08L_lt d)]
  simp only [u16ToU08H, u16ToU08L, U08_BIT_MASK, U08_BIT_COUNT, land_255, castU8,
    castU32, Nat.shiftRight_eq_div_pow]
  omega

theorem toU32_split (d : Nat) (hd : d < 2 ^ 32) :
    toU32 (u16ToU08H (u32ToU16H d)) (u16ToU08L (u32ToU16H d))
      (u16ToU08H (u32ToU16L d)) (u16ToU08L (u32ToU16L d)) = d := by
  rw [toU32_eq _ _ _ _ (u16ToU08H_lt _) (u16ToU08L_lt _) (u16ToU08H_lt _) (u16ToU08L_lt _)]
  simp only [u16ToU08H, u16ToU08L, u32ToU16H, u32ToU16L, U08_BIT_MASK, U16_BIT_MASK,
    U08_BIT_COUNT, U16_BIT_COUNT, land_255, land_65535, castU8, castU16,
    castU32, Nat.shiftRight_eq_div_pow]
  omega

theorem arrayToU16_u16ToArray (d : Nat) (data : List Nat) (h : data.length = 2) :
    arrayToU16 (u16ToArray d data) = toU16 (u16ToU08H d) (u16ToU08L d) := by
  simp [arrayToU16, u16ToArray, getD_set, h]

theorem arrayToU32_u32ToArray (d : Nat) (data : List Nat) (h : data.length = 4) :
    arrayToU32 (u32ToArray d data) =
      toU32 (u16ToU08H (u32ToU16H d)) (u16ToU08L (u32ToU16H d))
        (u16ToU08H (u32ToU16L d)) (u16ToU08L (u32ToU16L d)) := by
  simp [arrayToU32, u32ToArray, getD_set, h]

theorem mod_mod_pow_le (x B w : Nat) (h : B ≤ w) : x % 2 ^ B % 2 ^ w = x % 2 ^ B :=
  Nat.mod_eq_of_lt (Nat.lt_of_lt_of_le (Nat.mod_lt _ (Nat.pos_pow_of_pos _ (by decide)))
    (Nat.pow_le_pow_right (by decide) h))

theorem read_write_u8 (s : Signal) (v : Nat) (hT : s.T = Ty.u8)
    (hlen : s.mData.length = s.T.sizeof) (h2 : s.BitSize ≤ 8 * s.T.sizeof) :
    (s.write_u8 v).read_u8 = v % 2 ^ s.BitSize := by
  rw [hT] at hlen h2
  simp only [Ty.sizeof] at hlen h2
  simp only [Signal.write_u8, Signal.read_u8, Signal.bitMaskShift, hT, Ty.sizeof, U08_BIT_COUNT,
    getD_set, hlen, castU8]
  simp only [Nat.one_mul, Nat.lt_one_iff, and_self, if_true, Nat.zero_lt_one]
  rw [shl_mod_shr 8 s.BitSize v h2]
  exact mod_mod_pow_le _ _ _ h2

theorem read_write_u16 (s : Signal) (v : Nat) (hT : s.T = Ty.u16)
    (hlen : s.mData.length = s.T.sizeof) (h2 : s.BitSize ≤ 8 * s.T.sizeof) :
    (s.write_u16 v).read_u16 = v % 2 ^ s.BitSize := by
  rw [hT] at hlen h2
  simp only [Ty.sizeof] at hlen h2
  simp only [Signal.write_u16, Signal.read_u16, Signal.bitMaskShift, hT, Ty.sizeof, U08_BIT_COUNT]
  rw [arrayToU16_u16ToArray _ _ hlen, toU16_split _ (by simp only [castU16]; omega)]
  simp only [castU16]
  rw [shl_mod_shr 16 s.BitSize v h2]
  exact mod_mod_pow_le _ _ _ h2

theorem read_write_u32 (s : Signal) (v : Nat) (hT : s.T = Ty.u32)
    (hlen : s.mData.length = s.T.sizeof) (h2 : s.BitSize ≤ 8 * s.T.sizeof) :
    (s.write_u32 v).read_u32 = v % 2 ^ s.BitSize := by
  rw [hT] at hlen h2
  simp only [Ty.sizeof] at hlen h2
  simp only [Signal.write_u32, Signal.read_u32, Signal.bitMaskShift, hT, Ty.sizeof, U08_BIT_COUNT]
  rw [arrayToU32_u32ToArray _ _ hlen, toU32_split _ (by simp only [castU32]; omega)]
  simp only [castU32]
  rw [shl_mod_shr 32 s.BitSize v h2]
  exact mod_mod_pow_le _ _ _ h2

namespace Buffer

theorem index_of_lt {b : Buffer} {i : Nat} (h : i < b.size) : b.index i = (b, Ref.data i) := by
  simp [index, h]

theorem index_of_ge {b : Buffer} {i : Nat} (h : b.size ≤ i) :
    b.index i = ({ b with mStatus := Status.Overflow }, Ref.overrun) := by
  simp [index, Nat.not_lt.mpr h]

theorem orAt_of_lt {b : Buffer} {pos : Nat} (x : Nat) (h : pos < b.size) :
    b.orAt pos x = { b with mBuffer := b.mBuffer.set pos (b.mBuffer.getD pos 0 ||| x) } := by
  simp [orAt, index_of_lt h, store, load]

theorem orAt_of_ge {b : Buffer} {pos : Nat} (x : Nat) (h : b.size ≤ pos) :
    b.orAt pos x =
      { b with mStatus := Status.Overflow, mOverrunData := b.mOverrunData ||| x } := by
  simp [orAt, index_of_ge h, store, load]

theorem orAt_getD (b : Buffer) (pos x j : Nat) :
    (b.orAt pos x).mBuffer.getD j 0 =
      if j = pos ∧ pos < b.size then b.mBuffer.getD j 0 ||| x else b.mBuffer.getD j 0 := by
  by_cases h : pos < b.size
  · rw [orAt_of_lt x h]
    simp only [getD_set]
    by_cases hj : j = pos
    · subst hj; simp [h, show j < b.mBuffer.length from h]
    · simp [hj]
  · rw [orAt_of_ge x (Nat.le_of_not_lt h)]
    simp [h]

theorem orAt_size (b : Buffer) (pos x : Nat) : (b.orAt pos x).size = b.size := by
  by_cases h : pos < b.size
  · rw [orAt_of_lt x h]; simp [size]
  · rw [orAt_of_ge x (Nat.le_of_not_lt h)]; simp [size]

theorem orAt_status (b : Buffer) (pos x : Nat) :
    (b.orAt pos x).mStatus = if pos < b.size then b.mStatus else Status.Overflow := by
  by_cases h : pos < b.size
  · rw [orAt_of_lt x h]; simp [h]
  · rw [orAt_of_ge x (Nat.le_of_not_lt h)]; simp [h]

theorem orAt_orAt (b : Buffer) (pos x y : Nat) :
    (b.orAt pos x).orAt pos y = b.orAt pos (x ||| y) := by
  by_cases h : pos < b.size
  · have h2 : pos < (b.orAt pos x).size := by rw [orAt_size]; exact h
    rw [orAt_of_lt y h2, orAt_of_lt x h, orAt_of_lt _ h]
    simp [getD_set, List.set_set, Nat.lor_assoc, show pos < b.mBuffer.length from h]
  · have h1 : b.size ≤ pos := Nat.le_of_not_lt h
    have h2 : (b.orAt pos x).size ≤ pos := by rw [orAt_size]; exact h1
    rw [orAt_of_ge y h2, orAt_of_ge x h1, orAt_of_ge _ h1]
    simp [Nat.lor_assoc]

/-- The buffer after one pass of the insertion loop: one `|=` of the carried
remainder and the shifted source byte. -/
theorem insertBody_fst (signal : Signal) (i rem : Nat) (b : Buffer) :
    (insertBody signal i rem b).1 =
      b.orAt (i + signal.position)
        (rem ||| castU8 ((if i < signal.typeSize then signal.load (signal.index i) else 0)
          >>> signal.writeRShift)) := by
  unfold insertBody
  by_cases h : rem = 0
  · simp [h]
  · simp [h, orAt_orAt]

theorem insertBody_snd (signal : Signal) (i rem : Nat) (b : Buffer) :
    (insertBody signal i rem b).2 =
      if signal.writeLShift ≠ 0 then
        castU8 ((if i < signal.typeSize then signal.load (signal.index i) else 0)
          <<< signal.writeLShift)
      else rem := by
  simp [insertBody]

theorem insertLoop_eq_insertIter (signal : Signal) (k : Nat) :
    ∀ (i rem : Nat) (b : Buffer), signal.sizeInBuffer - i = k →
      insertLoop signal i rem b = insertIter signal (max 1 k) i rem b := by
  induction k using Nat.strong_induction_on with
  | _ k ih =>
    intro i rem b hk
    rw [insertLoop]
    by_cases h : i + 1 < signal.sizeInBuffer
    · rw [if_pos h, ih (signal.sizeInBuffer - (i + 1)) (by omega) _ _ _ rfl]
      have h1 : max 1 k = (max 1 (signal.sizeInBuffer - (i + 1))) + 1 := by omega
      rw [h1, insertIter]
    · rw [if_neg h]
      have h1 : max 1 k = 1 := by omega
      rw [h1]
      simp [insertIter]

/-- Insertion makes `max 1 sizeInBuffer` passes through its loop body. -/
theorem insert_eq_insertIter (b : Buffer) (signal : Signal) :
    b.insert signal = insertIter signal (max 1 signal.sizeInBuffer) 0 0 b := by
  unfold insert
  exact insertLoop_eq_insertIter signal _ 0 0 b rfl

theorem insertIter_size (signal : Signal) :
    ∀ (k i rem : Nat) (b : Buffer), (insertIter signal k i rem b).size = b.size := by
  intro k
  induction k with
  | zero => intro i rem b; rfl
  | succ k ih =>
    intro i rem b
    rw [insertIter, ih, insertBody_fst, orAt_size]

theorem insertIter_getD_outside (signal : Signal) (j : Nat) :
    ∀ (k i rem : Nat) (b : Buffer),
      (j < i + signal.position ∨ i + k + signal.position ≤ j) →
      (insertIter signal k i rem b).mBuffer.getD j 0 = b.mBuffer.getD j 0 := by
  intro k
  induction k with
  | zero => intro i rem b _; rfl
  | succ k ih =>
    intro i rem b hj
    rw [insertIter, ih _ _ _ (by omega), insertBody_fst, orAt_getD]
    have hne : ¬ (j = i + signal.position ∧ i + signal.position < b.size) := by
      intro hc
      omega
    rw [if_neg hne]

theorem insertIter_getD_land (signal : Signal) (j : Nat) :
    ∀ (k i rem : Nat) (b : Buffer),
      (insertIter signal k i rem b).mBuffer.getD j 0 &&& b.mBuffer.getD j 0 =
        b.mBuffer.getD j 0 := by
  intro k
  induction k with
  | zero => intro i rem b; simp [insertIter]
  | succ k ih =>
    intro i rem b
    rw [insertIter]
    refine land_trans (ih _ _ _) ?_
    rw [insertBody_fst, orAt_getD]
    split
    · exact lor_land_self _ _
    · exact Nat.and_self _

theorem insertIter_status (signal : Signal) :
    ∀ (k i rem : Nat) (b : Buffer), b.mStatus = Status.Overflow →
      (insertIter signal k i rem b).mStatus = Status.Overflow := by
  intro k
  induction k with
  | zero => intro i rem b h; exact h
  | succ k ih =>
    intro i rem b h
    rw [insertIter]
    apply ih
    rw [insertBody_fst, orAt_status]
    split
    · exact h
    · rfl

theorem index_status (b : Buffer) (i : Nat) (h : b.mStatus = Status.Overflow) :
    (b.index i).1.mStatus = Status.Overflow := by
  unfold index
  split
  · exact h
  · rfl

theorem index_mBuffer (b : Buffer) (i : Nat) : (b.index i).1.mBuffer = b.mBuffer := by
  unfold index
  split <;> rfl

theorem store_status (b : Buffer) (r : Ref) (x : Nat) : (b.store r x).mStatus = b.mStatus := by
  cases r <;> rfl

theorem extractBody_status (i rem : Nat) (b : Buffer) (signal : Signal)
    (h : b.mStatus = Status.Overflow) :
    (extractBody i rem b signal).1.mStatus = Status.Overflow := by
  simp only [extractBody, readAt]
  exact index_status b _ h

theorem extractLoop_status :
    ∀ (i rem : Nat) (b : Buffer) (signal : Signal), b.mStatus = Status.Overflow →
      (extractLoop i rem b signal).1.mStatus = Status.Overflow := by
  intro i
  induction i with
  | zero =>
    intro rem b signal h
    simp only [extractLoop]
    exact extractBody_status 0 rem b signal h
  | succ i ih =>
    intro rem b signal h
    rw [extractLoop]
    exact ih _ _ _ (extractBody_status _ rem b signal h)

theorem extract_status (b : Buffer) (signal : Signal) (h : b.mStatus = Status.Overflow) :
    (b.extract signal).1.mStatus = Status.Overflow := by
  unfold extract
  exact extractLoop_status _ _ b signal h

theorem step_status (b : Buffer) (op : Op) (h : b.mStatus = Status.Overflow) :
    (b.step op).mStatus = Status.Overflow := by
  cases op with
  | index i =>
    simp only [step]
    exact index_status b i h
  | assign i x =>
    simp only [step]
    rw [store_status]
    exact index_status b i h
  | insert signal =>
    simp only [step]
    rw [insert_eq_insertIter]
    exact insertIter_status signal _ _ _ b h
  | extract signal =>
    simp only [step]
    exact extract_status b signal h
  | status => exact h
  | size => exact h

theorem run_status (ops : List Op) :
    ∀ b : Buffer, b.mStatus = Status.Overflow → (b.run ops).mStatus = Status.Overflow := by
  induction ops with
  | nil => intro b h; exact h
  | cons op ops ih =>
    intro b h
    simp only [run, List.foldl_cons]
    exact ih _ (step_status b op h)

end Buffer

namespace Signal

theorem orAt_merge (s : Signal) (i x y : Nat) :
    (s.orAt i x).orAt i y = s.orAt i (x ||| y) := by
  unfold orAt index
  by_cases h : i < s.T.sizeof
  · simp only [h, if_true, store, load, getD_set, List.set_set]
    by_cases h2 : i < s.mData.length
    · simp [h2, Nat.lor_assoc]
    · have h3 : s.mData.length ≤ i := Nat.le_of_not_lt h2
      simp [h2, List.set_eq_of_length_le, h3]
  · simp [h, store, load, Nat.lor_assoc]

end Signal

namespace Buffer

theorem extractBody_fst (i rem : Nat) (b : Buffer) (signal : Signal) :
    (extractBody i rem b signal).1 = (b.readAt ((i + signal.position) % SIZE_MOD)).1 := by
  simp [extractBody]

/-- The signal after one pass of the extraction loop: one `|=` of the carried
remainder and the shifted buffer byte. -/
theorem extractBody_snd_fst (i rem : Nat) (b : Buffer) (signal : Signal) :
    (extractBody i rem b signal).2.1 =
      if i < signal.typeSize then
        signal.orAt i
          (rem ||| castU8 ((b.readAt ((i + signal.position) % SIZE_MOD)).2 <<< signal.readLShift))
      else signal := by
  unfold extractBody
  by_cases h : rem = 0
  · simp [h]
  · simp [h, Signal.orAt_merge]

theorem extractBody_snd_snd (i rem : Nat) (b : Buffer) (signal : Signal) :
    (extractBody i rem b signal).2.2 =
      if signal.readRShift ≠ 0 then
        castU8 ((b.readAt ((i + signal.position) % SIZE_MOD)).2 >>> signal.readRShift)
      else rem := by
  simp [extractBody]

end Buffer

theorem getD_replicate_zero (n j : Nat) : (List.replicate n 0).getD j 0 = 0 := by
  simp only [List.getD_eq_getElem?_getD, List.getElem?_replicate]
  split <;> rfl

/-! ## The claims -/

/-- Claim C1, evaluated where the round trip fails.  `Signal<uint16_t, 0, 10>`
meets every condition of the claim (`BitSize = 10 < 16`, `sizeInBuffer() = 2`,
value `1 < 2^10`), yet inserting the written value `1` into a zero-cleared
4-byte buffer leaves the buffer all zero with status `Ok`, and extracting into
a cleared signal of the same shape and reading gives `0`, not `1`. -/
theorem roundtrip_loses_bits_u16_bitpos0_bitsize10 :
    (Signal.ctor Ty.u16 0 10).BitSize < 8 * Ty.u16.sizeof ∧
      2 ≤ (Signal.ctor Ty.u16 0 10).sizeInBuffer ∧
      (1 : Nat) < 2 ^ 10 ∧
      ((Signal.ctor Ty.u16 0 10).write 1).map
          (fun s => (Buffer.ctor 4).clear.insert s) = some (Buffer.ctor 4) ∧
      ((Signal.ctor Ty.u16 0 10).write 1).bind
          (fun s => (((Buffer.ctor 4).clear.insert s).extract
            (Signal.ctor Ty.u16 0 10).clear).2.read) = some 0 := by
  simp only [Buffer.insert_eq_insertIter]
  decide

/-- Claim C2: for `Signal<uint16_t, 4, 12>` and a zero-cleared 4-byte buffer,
`write(v)`, insert, extract into a cleared signal of the same shape and `read`
give back exactly `v`, for every `v < 2^12`. -/
theorem roundtrip_u16_bitpos4_bitsize12 (v : Nat) (hv : v < 2 ^ 12) :
    ((Signal.ctor Ty.u16 4 12).write v).bind
        (fun s => (((Buffer.ctor 4).clear.insert s).extract
          (Signal.ctor Ty.u16 4 12).clear).2.read) = some v := by
  simp only [Buffer.insert_eq_insertIter, Signal.write, Signal.ctor, Option.bind,
    Signal.write_u16, Signal.sizeInBuffer, Signal.BYTE_SIZE, Signal.BIT_OFFSET,
    Signal.typeBitSize, Signal.BIT_MAX_POS, SIZE_MOD, U08_BIT_COUNT, Signal.clear, Buffer.clear]
  simp [Buffer.insertIter, Buffer.insertBody_fst, Buffer.insertBody_snd, Buffer.extract,
    Buffer.extractLoop, Buffer.extractBody_fst, Buffer.extractBody_snd_fst,
    Buffer.extractBody_snd_snd, decrement,
    Signal.bitMaskShift, Ty.sizeof, U08_BIT_COUNT, u16ToArray, SIZE_MOD,
    Signal.typeSize, Signal.index, Signal.load, Signal.writeRShift, Signal.writeLShift,
    Signal.position, Buffer.ctor, Buffer.orAt, Buffer.index, Buffer.size, Buffer.store,
    Buffer.load, Buffer.readAt, Signal.readLShift, Signal.readRShift, Signal.orAt, Signal.store,
    Signal.read, Signal.read_u16, arrayToU16]
  have hH : u16ToU08H (castU16 (v <<< 4)) = v / 16 := by
    simp only [u16ToU08H, castU8, castU16, castU32, U08_BIT_COUNT, Nat.shiftLeft_eq,
      Nat.shiftRight_eq_div_pow]
    omega
  have hL : u16ToU08L (castU16 (v <<< 4)) = v % 16 * 16 := by
    simp only [u16ToU08L, castU8, castU16, U08_BIT_MASK, land_255, Nat.shiftLeft_eq]
    omega
  rw [hH, hL]
  have hX : castU8 ((v / 16) <<< 5) ||| castU8 ((v % 16 * 16) >>> 3) =
      v / 16 % 8 * 32 + v % 16 * 2 := by
    simp only [castU8, Nat.shiftLeft_eq, Nat.shiftRight_eq_div_pow]
    rw [lor_eq_add 5 _ _ (by omega) (by omega)]
    omega
  rw [hX]
  have hY : castU8 ((v / 16 % 8 * 32 + v % 16 * 2) >>> 5) |||
      castU8 (castU8 ((v / 16) >>> 3) <<< 3) = v / 16 := by
    simp only [castU8, Nat.shiftLeft_eq, Nat.shiftRight_eq_div_pow]
    rw [Nat.lor_comm, lor_eq_add 3 _ _ (by omega) (by omega)]
    omega
  have hZ : castU8 ((v / 16 % 8 * 32 + v % 16 * 2) <<< 3) = v % 16 * 16 := by
    simp only [castU8, Nat.shiftLeft_eq]
    omega
  rw [hY, hZ, toU16_eq _ _ (by omega) (by omega)]
  simp only [castU16, Nat.shiftRight_eq_div_pow]
  omega

/-- Instance of the theorem for claim C2 at a concrete input. -/
theorem roundtrip_u16_bitpos4_bitsize12_witness :
    (0xABC : Nat) < 2 ^ 12 ∧
      ((Signal.ctor Ty.u16 4 12).write 0xABC).bind
          (fun s => (((Buffer.ctor 4).clear.insert s).extract
            (Signal.ctor Ty.u16 4 12).clear).2.read) = some 0xABC :=
  ⟨by decide, roundtrip_u16_bitpos4_bitsize12 0xABC (by decide)⟩

/-- Claim C3 fails as stated: after `write(0xABC)` on `Signal<uint16_t, 4, 12>`
and insertion into a zero-cleared 4-byte buffer, byte 0 is not `0x0C`. -/
theorem layout_byte0_is_not_0x0C :
    ¬ (((Signal.ctor Ty.u16 4 12).write 0xABC).map
        (fun s => ((Buffer.ctor 4).clear.insert s).mBuffer.getD 0 0) = some 0x0C) := by
  simp only [Buffer.insert_eq_insertIter]
  decide

/-- Claim C3 as amended: after `write(0xABC)` on `Signal<uint16_t, 4, 12>` and
insertion into a zero-cleared 4-byte buffer, byte 0 equals `0x15` (bits 4..0
hold the five most significant bits of the value, bits 7..5 are untouched and
still zero), byte 1 equals `0x78`, bytes 2 and 3 are still zero and the status
is `Ok`. -/
theorem layout_u16_bitpos4_bitsize12 :
    ((Signal.ctor Ty.u16 4 12).write 0xABC).map (fun s => (Buffer.ctor 4).clear.insert s) =
      some { mOverrunData := 0, mStatus := Status.Ok, mBuffer := [0x15, 0x78, 0, 0] } := by
  simp only [Buffer.insert_eq_insertIter]
  decide

/-- Claim C4 (non-bleed): when `sizeInBuffer() >= 1`, insertion keeps the buffer
size and leaves every in-range byte whose index is outside
`[position(), position() + sizeInBuffer())` with the value it had; on a
zero-cleared buffer that byte is still zero. -/
theorem insert_leaves_outside_bytes (b : Buffer) (signal : Signal) (j : Nat)
    (hn : 1 ≤ signal.sizeInBuffer) (hj : j < b.size)
    (hout : j < signal.position ∨ signal.position + signal.sizeInBuffer ≤ j) :
    (b.insert signal).size = b.size ∧
      (b.insert signal).mBuffer.getD j 0 = b.mBuffer.getD j 0 ∧
      (b.clear.insert signal).mBuffer.getD j 0 = 0 := by
  have key : ∀ c : Buffer, (c.insert signal).mBuffer.getD j 0 = c.mBuffer.getD j 0 := by
    intro c
    rw [Buffer.insert_eq_insertIter]
    apply Buffer.insertIter_getD_outside
    omega
  refine ⟨?_, key b, ?_⟩
  · rw [Buffer.insert_eq_insertIter, Buffer.insertIter_size]
  · rw [key]
    exact getD_replicate_zero _ _

/-- Instance of the theorem for claim C4 at a concrete input: a signal holding
`0xAB, 0xC7` at `BitPos = 12` changes bytes 1 and 2 of the buffer
`0x5A, 0x00, 0x00, 0xA5` and leaves byte 3, right after its window, at `0xA5`. -/
theorem insert_leaves_outside_bytes_witness :
    (1 ≤ (Signal.mk Ty.u16 12 12 0 [0xAB, 0xC7]).sizeInBuffer ∧
      3 < (Buffer.mk 0 Status.Ok [0x5A, 0x00, 0x00, 0xA5]).size ∧
      (3 < (Signal.mk Ty.u16 12 12 0 [0xAB, 0xC7]).position ∨
        (Signal.mk Ty.u16 12 12 0 [0xAB, 0xC7]).position +
          (Signal.mk Ty.u16 12 12 0 [0xAB, 0xC7]).sizeInBuffer ≤ 3)) ∧
    (((Buffer.mk 0 Status.Ok [0x5A, 0x00, 0x00, 0xA5]).insert
          (Signal.mk Ty.u16 12 12 0 [0xAB, 0xC7])).size = 4 ∧
      ((Buffer.mk 0 Status.Ok [0x5A, 0x00, 0x00, 0xA5]).insert
          (Signal.mk Ty.u16 12 12 0 [0xAB, 0xC7])).mBuffer.getD 3 0 = 0xA5 ∧
      ((Buffer.mk 0 Status.Ok [0x5A, 0x00, 0x00, 0xA5]).clear.insert
          (Signal.mk Ty.u16 12 12 0 [0xAB, 0xC7])).mBuffer.getD 3 0 = 0) ∧
    ((Buffer.mk 0 Status.Ok [0x5A, 0x00, 0x00, 0xA5]).insert
        (Signal.mk Ty.u16 12 12 0 [0xAB, 0xC7])).mBuffer = [0x5A, 0x15, 0x78, 0xA5] :=
  ⟨by decide,
    insert_leaves_outside_bytes (Buffer.mk 0 Status.Ok [0x5A, 0x00, 0x00, 0xA5])
      (Signal.mk Ty.u16 12 12 0 [0xAB, 0xC7]) 3 (by decide) (by decide) (by decide),
    by rw [Buffer.insert_eq_insertIter]; decide⟩

/-- Claim C5: insertion only sets bits.  Every in-range byte `b'` after
`operator<<` satisfies `b' AND b = b` for its value `b` before. -/
theorem insert_only_sets_bits (b : Buffer) (signal : Signal) (j : Nat) (hj : j < b.size) :
    (b.insert signal).mBuffer.getD j 0 &&& b.mBuffer.getD j 0 = b.mBuffer.getD j 0 := by
  rw [Buffer.insert_eq_insertIter]
  exact Buffer.insertIter_getD_land signal j _ _ _ b

/-- Instance of the theorem for claim C5 at a concrete input. -/
theorem insert_only_sets_bits_witness :
    1 < (Buffer.mk 0 Status.Ok [0xFF, 0x81, 0, 0]).size ∧
      ((Buffer.mk 0 Status.Ok [0xFF, 0x81, 0, 0]).insert
          (Signal.mk Ty.u16 4 12 0 [0xAB, 0xC0])).mBuffer.getD 1 0 &&&
        (Buffer.mk 0 Status.Ok [0xFF, 0x81, 0, 0]).mBuffer.getD 1 0 =
        (Buffer.mk 0 Status.Ok [0xFF, 0x81, 0, 0]).mBuffer.getD 1 0 :=
  ⟨by decide,
    insert_only_sets_bits (Buffer.mk 0 Status.Ok [0xFF, 0x81, 0, 0])
      (Signal.mk Ty.u16 4 12 0 [0xAB, 0xC0]) 1 (by decide)⟩

/-- Claim C6: on a buffer whose status is `Ok`, `operator[](i)` leaves status
`Overflow` exactly when `i >= Size`; for `i < Size` the reference designates
byte `i`, reads its value, and the status is still `Ok`. -/
theorem index_overflow_iff_out_of_range (b : Buffer) (i : Nat) (hok : b.status = Status.Ok) :
    ((b.index i).1.status = Status.Overflow ↔ b.size ≤ i) ∧
      (i < b.size →
        (b.index i).2 = Ref.data i ∧
          (b.index i).1.load (b.index i).2 = b.mBuffer.getD i 0 ∧
          (b.index i).1.status = Status.Ok) := by
  unfold Buffer.status at *
  by_cases h : i < b.size
  · rw [Buffer.index_of_lt h]
    simp [hok, h, Buffer.load]
  · rw [Buffer.index_of_ge (Nat.le_of_not_lt h)]
    simp [h, Nat.le_of_not_lt h]

/-- Instance of the theorem for claim C6 at a concrete input. -/
theorem index_overflow_iff_out_of_range_witness :
    (Buffer.ctor 4).status = Status.Ok ∧
      ((((Buffer.ctor 4).index 4).1.status = Status.Overflow ↔ (Buffer.ctor 4).size ≤ 4) ∧
        (4 < (Buffer.ctor 4).size →
          ((Buffer.ctor 4).index 4).2 = Ref.data 4 ∧
            ((Buffer.ctor 4).index 4).1.load ((Buffer.ctor 4).index 4).2 =
              (Buffer.ctor 4).mBuffer.getD 4 0 ∧
            ((Buffer.ctor 4).index 4).1.status = Status.Ok)) :=
  ⟨by decide, index_overflow_iff_out_of_range (Buffer.ctor 4) 4 (by decide)⟩

/-- Claim C7: for `i >= Size`, storing `x` through `operator[](i)` leaves the
in-range bytes unchanged, and so does reading through it afterwards; a later
`operator[](j)` with `j < Size` reads the value byte `j` had before. -/
theorem overrun_cell_is_dead_end (b : Buffer) (i x j : Nat) (hi : b.size ≤ i)
    (hj : j < b.size) :
    ((b.index i).1.store (b.index i).2 x).mBuffer = b.mBuffer ∧
      (((b.index i).1.store (b.index i).2 x).readAt i).1.mBuffer = b.mBuffer ∧
      (((b.index i).1.store (b.index i).2 x).readAt j).2 = b.mBuffer.getD j 0 ∧
      ((((b.index i).1.store (b.index i).2 x).readAt i).1.readAt j).2 = b.mBuffer.getD j 0 := by
  rw [Buffer.index_of_ge hi]
  have hs : ∀ c : Buffer, c.mBuffer = b.mBuffer → (c.readAt j).2 = b.mBuffer.getD j 0 := by
    intro c hc
    have hjc : j < c.size := by simpa [Buffer.size, hc] using hj
    simp [Buffer.readAt, Buffer.index_of_lt hjc, Buffer.load, hc]
  refine ⟨rfl, ?_, hs _ rfl, hs _ ?_⟩
  · simp [Buffer.readAt, Buffer.index_mBuffer, Buffer.store]
  · simp [Buffer.readAt, Buffer.index_mBuffer, Buffer.store]

/-- Instance of the theorem for claim C7 at a concrete input. -/
theorem overrun_cell_is_dead_end_witness :
    ((Buffer.ctor 2).size ≤ 2 ∧ 1 < (Buffer.ctor 2).size) ∧
      ((((Buffer.ctor 2).index 2).1.store ((Buffer.ctor 2).index 2).2 0xEE).mBuffer =
          (Buffer.ctor 2).mBuffer ∧
        ((((Buffer.ctor 2).index 2).1.store ((Buffer.ctor 2).index 2).2 0xEE).readAt 2).1.mBuffer =
          (Buffer.ctor 2).mBuffer ∧
        ((((Buffer.ctor 2).index 2).1.store ((Buffer.ctor 2).index 2).2 0xEE).readAt 1).2 =
          (Buffer.ctor 2).mBuffer.getD 1 0 ∧
        (((((Buffer.ctor 2).index 2).1.store ((Buffer.ctor 2).index 2).2 0xEE).readAt 2).1.readAt
            1).2 = (Buffer.ctor 2).mBuffer.getD 1 0) :=
  ⟨by decide, overrun_cell_is_dead_end (Buffer.ctor 2) 2 0xEE 1 (by decide) (by decide)⟩

/-- Claim C8: once the status is `Overflow` it stays `Overflow` after any
indexing, insertion or extraction, and after any sequence of calls other than
`clear()`. -/
theorem overflow_is_sticky (b : Buffer) (hov : b.status = Status.Overflow) :
    (∀ i : Nat, (b.index i).1.status = Status.Overflow) ∧
      (∀ signal : Signal, (b.insert signal).status = Status.Overflow) ∧
      (∀ signal : Signal, (b.extract signal).1.status = Status.Overflow) ∧
      (∀ ops : List Buffer.Op, (b.run ops).status = Status.Overflow) := by
  unfold Buffer.status at *
  refine ⟨fun i => Buffer.index_status b i hov, fun signal => ?_,
    fun signal => Buffer.extract_status b signal hov, fun ops => Buffer.run_status ops b hov⟩
  rw [Buffer.insert_eq_insertIter]
  exact Buffer.insertIter_status signal _ _ _ b hov

/-- Instance of the theorem for claim C8 at a concrete input. -/
theorem overflow_is_sticky_witness :
    ((Buffer.ctor 1).index 1).1.status = Status.Overflow ∧
      ((∀ i : Nat, ((((Buffer.ctor 1).index 1).1).index i).1.status = Status.Overflow) ∧
        (∀ signal : Signal,
          ((((Buffer.ctor 1).index 1).1).insert signal).status = Status.Overflow) ∧
        (∀ signal : Signal,
          ((((Buffer.ctor 1).index 1).1).extract signal).1.status = Status.Overflow) ∧
        (∀ ops : List Buffer.Op,
          ((((Buffer.ctor 1).index 1).1).run ops).status = Status.Overflow)) :=
  ⟨by decide, overflow_is_sticky ((Buffer.ctor 1).index 1).1 (by decide)⟩

/-- Claim C9: after `clear()` the status is `Ok`, the size is unchanged and
every in-range byte reads as zero (reading it leaves the status `Ok`),
whatever the state before. -/
theorem clear_resets_buffer (b : Buffer) (i : Nat) (hi : i < b.size) :
    b.clear.status = Status.Ok ∧ b.clear.size = b.size ∧
      (b.clear.readAt i).2 = 0 ∧ (b.clear.readAt i).1.status = Status.Ok := by
  have hs : b.clear.size = b.size := by simp [Buffer.clear, Buffer.size]
  have hic : i < b.clear.size := by rw [hs]; exact hi
  refine ⟨rfl, hs, ?_, ?_⟩
  · rw [Buffer.readAt, Buffer.index_of_lt hic]
    exact getD_replicate_zero _ _
  · rw [Buffer.readAt, Buffer.index_of_lt hic]
    rfl

/-- Instance of the theorem for claim C9 at a concrete input. -/
theorem clear_resets_buffer_witness :
    2 < (Buffer.mk 0x55 Status.Overflow [1, 2, 3]).size ∧
      ((Buffer.mk 0x55 Status.Overflow [1, 2, 3]).clear.status = Status.Ok ∧
        (Buffer.mk 0x55 Status.Overflow [1, 2, 3]).clear.size =
          (Buffer.mk 0x55 Status.Overflow [1, 2, 3]).size ∧
        ((Buffer.mk 0x55 Status.Overflow [1, 2, 3]).clear.readAt 2).2 = 0 ∧
        ((Buffer.mk 0x55 Status.Overflow [1, 2, 3]).clear.readAt 2).1.status = Status.Ok) :=
  ⟨by decide, clear_resets_buffer (Buffer.mk 0x55 Status.Overflow [1, 2, 3]) 2 (by decide)⟩

/-- Claim C10: for `T` one of `uint8_t`, `uint16_t`, `uint32_t`,
`1 <= BitSize <= 8 * sizeof(T)` and a value `v` of type `T`, `read` after
`write(v)` gives `v mod 2^BitSize`, hence `v` itself when `v < 2^BitSize`.  The
storage is the array `mData[sizeof(T)]`. -/
theorem write_read_masks_value (s : Signal) (v : Nat)
    (hT : s.T = Ty.u8 ∨ s.T = Ty.u16 ∨ s.T = Ty.u32)
    (hlen : s.mData.length = s.T.sizeof)
    (h1 : 1 ≤ s.BitSize) (h2 : s.BitSize ≤ 8 * s.T.sizeof)
    (hv : v < 2 ^ (8 * s.T.sizeof)) :
    (s.write v).bind Signal.read = some (v % 2 ^ s.BitSize) ∧
      (v < 2 ^ s.BitSize → (s.write v).bind Signal.read = some v) := by
  have key : (s.write v).bind Signal.read = some (v % 2 ^ s.BitSize) := by
    rcases hT with hT | hT | hT
    · have hT2 : (s.write_u8 v).T = Ty.u8 := hT
      simp only [Signal.write, hT, Option.bind, Signal.read, hT2]
      rw [read_write_u8 s v hT hlen h2]
    · have hT2 : (s.write_u16 v).T = Ty.u16 := hT
      simp only [Signal.write, hT, Option.bind, Signal.read, hT2]
      rw [read_write_u16 s v hT hlen h2]
    · have hT2 : (s.write_u32 v).T = Ty.u32 := hT
      simp only [Signal.write, hT, Option.bind, Signal.read, hT2]
      rw [read_write_u32 s v hT hlen h2]
  refine ⟨key, fun hlt => ?_⟩
  rw [key, Nat.mod_eq_of_lt hlt]

/-- Instance of the theorem for claim C10 at a concrete input. -/
theorem write_read_masks_value_witness :
    ((Signal.ctor Ty.u16 4 12).T = Ty.u8 ∨ (Signal.ctor Ty.u16 4 12).T = Ty.u16 ∨
        (Signal.ctor Ty.u16 4 12).T = Ty.u32) ∧
      (Signal.ctor Ty.u16 4 12).mData.length = (Signal.ctor Ty.u16 4 12).T.sizeof ∧
      1 ≤ (Signal.ctor Ty.u16 4 12).BitSize ∧
      (Signal.ctor Ty.u16 4 12).BitSize ≤ 8 * (Signal.ctor Ty.u16 4 12).T.sizeof ∧
      (0xFABC : Nat) < 2 ^ (8 * (Signal.ctor Ty.u16 4 12).T.sizeof) ∧
      ((Signal.ctor Ty.u16 4 12).write 0xFABC).bind Signal.read = some 0xABC :=
  ⟨by decide, by decide, by decide, by decide, by decide,
    (write_read_masks_value (Signal.ctor Ty.u16 4 12) 0xFABC (by decide) (by decide) (by decide)
      (by decide) (by decide)).1⟩


/-! ## Auxiliary facts for the bit primitives -/

theorem mul_pow_mod_pow (v k w : Nat) (hk : k ≤ w) : (v * 2 ^ k) % 2 ^ w % 2 ^ k = 0 := by
  have hd : 2 ^ k ∣ 2 ^ w := Nat.pow_dvd_pow 2 hk
  rw [Nat.mod_mod_of_dvd _ hd]
  exact Nat.mul_mod_left v (2 ^ k)

theorem storedWord_write_u8 (s : Signal) (v : Nat) (hlen : s.mData.length = 1) :
    (s.write_u8 v).storedWord = castU8 (v <<< s.bitMaskShift) := by
  obtain ⟨a, ha⟩ := List.length_eq_one.mp hlen
  simp [Signal.write_u8, Signal.storedWord, ha]

theorem storedWord_write_u16 (s : Signal) (v : Nat) (hlen : s.mData.length = 2) :
    (s.write_u16 v).storedWord = castU16 (v <<< s.bitMaskShift) := by
  obtain ⟨a, b, hab⟩ := List.length_eq_two.mp hlen
  have h := toU16_split (castU16 (v <<< s.bitMaskShift)) (by simp only [castU16]; omega)
  rw [toU16_eq _ _ (u16ToU08H_lt _) (u16ToU08L_lt _)] at h
  simp only [Signal.write_u16, Signal.storedWord, hab, u16ToArray, List.set_cons_zero,
    List.set_cons_succ, List.foldl_cons, List.foldl_nil]
  omega

theorem storedWord_write_u32 (s : Signal) (v : Nat) (hlen : s.mData.length = 4) :
    (s.write_u32 v).storedWord = castU32 (v <<< s.bitMaskShift) := by
  obtain ⟨a, b, c, d, habcd⟩ : ∃ a b c d, s.mData = [a, b, c, d] := by
    match hm : s.mData, hlen with
    | [a, b, c, d], _ => exact ⟨a, b, c, d, rfl⟩
  have h := toU32_split (castU32 (v <<< s.bitMaskShift)) (by simp only [castU32]; omega)
  rw [toU32_eq _ _ _ _ (u16ToU08H_lt _) (u16ToU08L_lt _) (u16ToU08H_lt _) (u16ToU08L_lt _)] at h
  simp only [Signal.write_u32, Signal.storedWord, habcd, u32ToArray, List.set_cons_zero,
    List.set_cons_succ, List.foldl_cons, List.foldl_nil]
  omega

theorem storedWord_replicate_zero (n : Nat) :
    (List.replicate n 0).foldl (fun acc byte => acc * 256 + byte) 0 = 0 := by
  induction n with
  | zero => rfl
  | succ n ih => simpa [List.replicate_succ] using ih

theorem natCeil_div_eight (a : Nat) : ⌈((a : ℚ) / 8)⌉₊ = (a + 7) / 8 := by
  by_cases h0 : (a + 7) / 8 = 0
  · have ha : a = 0 := by omega
    subst ha
    simp
  · rw [Nat.ceil_eq_iff h0]
    have h1 : 8 * ((a + 7) / 8 - 1) < a := by omega
    have h2 : a ≤ 8 * ((a + 7) / 8) := by omega
    have h1q : (8 : ℚ) * (((a + 7) / 8 - 1 : ℕ) : ℚ) < (a : ℚ) := by exact_mod_cast h1
    have h2q : (a : ℚ) ≤ (8 : ℚ) * (((a + 7) / 8 : ℕ) : ℚ) := by exact_mod_cast h2
    constructor
    · rw [lt_div_iff₀ (by norm_num : (0 : ℚ) < 8)]
      linarith
    · rw [div_le_iff₀ (by norm_num : (0 : ℚ) < 8)]
      linarith

theorem land_double (a b : Nat) : (2 * a) &&& (2 * b) = 2 * (a &&& b) := by
  apply Nat.eq_of_testBit_eq
  intro i
  cases i with
  | zero =>
    have h1 : (2 * a) % 2 = 0 := by omega
    have h2 : (2 * (a &&& b)) % 2 = 0 := by omega
    simp [Nat.testBit_and, Nat.testBit_zero, h1, h2]
  | succ i =>
    have h1 : 2 * a / 2 = a := by omega
    have h2 : 2 * b / 2 = b := by omega
    have h3 : 2 * (a &&& b) / 2 = a &&& b := by omega
    rw [Nat.testBit_and, Nat.testBit_succ, Nat.testBit_succ, Nat.testBit_succ, h1, h2, h3,
      Nat.testBit_and]

theorem land_odd_complement (n a : Nat) (ha : 2 * a + 1 < 2 ^ (n + 1)) :
    (2 * a + 1) &&& (2 ^ (n + 1) - (2 * a + 1)) = 1 := by
  have ha2 : a < 2 ^ n := by
    rw [Nat.pow_succ] at ha
    omega
  apply Nat.eq_of_testBit_eq
  intro i
  rw [Nat.testBit_and]
  cases i with
  | zero =>
    simp only [Nat.testBit_zero]
    have h1 : (2 * a + 1) % 2 = 1 := by omega
    have h2 : (2 ^ (n + 1) - (2 * a + 1)) % 2 = 1 := by
      rw [Nat.pow_succ] at ha ⊢
      omega
    simp [h1, h2]
  | succ i =>
    simp only [Nat.testBit_succ]
    have h1 : (2 * a + 1) / 2 = a := by omega
    have h2 : (2 ^ (n + 1) - (2 * a + 1)) / 2 = 2 ^ n - (a + 1) := by
      rw [Nat.pow_succ] at ha ⊢
      omega
    rw [h1, h2, Nat.testBit_two_pow_sub_succ ha2]
    have h3 : (1 : Nat) / 2 = 0 := rfl
    rw [h3, Nat.zero_testBit]
    cases a.testBit i <;> simp

/-- Isolating the lowest set bit: `x AND (2^n - x)` is the power of two of the
lowest set bit of `x`. -/
theorem land_neg_eq_two_pow (n : Nat) :
    ∀ x : Nat, 0 < x → x < 2 ^ n →
      ∃ k, k < n ∧ x &&& (2 ^ n - x) = 2 ^ k ∧ x.testBit k = true ∧ x % 2 ^ k = 0 := by
  induction n with
  | zero =>
    intro x h0 h1
    simp at h1
    omega
  | succ n ih =>
    intro x h0 h1
    rcases Nat.mod_two_eq_zero_or_one x with hx | hx
    · -- even
      obtain ⟨a, rfl⟩ : ∃ a, x = 2 * a := ⟨x / 2, by omega⟩
      have ha0 : 0 < a := by omega
      have ha1 : a < 2 ^ n := by
        rw [Nat.pow_succ] at h1
        omega
      obtain ⟨k, hk, hand, hbit, hmod⟩ := ih a ha0 ha1
      refine ⟨k + 1, by omega, ?_, ?_, ?_⟩
      · have e : 2 ^ (n + 1) - 2 * a = 2 * (2 ^ n - a) := by
          rw [Nat.pow_succ]
          omega
        rw [e, land_double, hand, Nat.pow_succ, Nat.mul_comm]
      · rw [Nat.testBit_succ]
        have e : 2 * a / 2 = a := by omega
        rw [e]
        exact hbit
      · rw [Nat.pow_succ, Nat.mul_comm (2 ^ k) 2, Nat.mul_mod_mul_left, hmod]
    · -- odd
      obtain ⟨a, rfl⟩ : ∃ a, x = 2 * a + 1 := ⟨x / 2, by omega⟩
      refine ⟨0, by omega, ?_, ?_, ?_⟩
      · rw [land_odd_complement n a h1]
        rfl
      · rw [Nat.testBit_zero]
        exact decide_eq_true hx
      · rw [Nat.pow_zero]
        exact Nat.mod_one _

theorem twosComplement_eq (x : Nat) (h0 : 0 < x) (h1 : x < 2 ^ 32) :
    twosComplement x = 2 ^ 32 - x := by
  simp only [twosComplement, notU32, castU32]
  omega

set_option maxRecDepth 100000 in
theorem deBruijn_lookup : ∀ k < 32,
    deBruijnBitPositionTable.getD (castU32 (2 ^ k * deBruijnSeq) >>> 27) 0 = (k : Int) := by
  decide

set_option maxRecDepth 1000000 in
theorem reflect_testBit_all :
    ∀ b < 256, ∀ i < 8, (reflect b).testBit i = b.testBit (7 - i) := by
  decide!

set_option maxRecDepth 1000000 in
theorem reflect_reflect_all : ∀ b < 256, reflect (reflect b) = b := by
  decide!

set_option maxRecDepth 1000000 in
theorem testReflect_eq_all : ∀ b < 256, TestBitBase.reflect b = some (reflect b) := by
  decide!

set_option maxRecDepth 1000000 in
theorem reflect_lt_all : ∀ b < 256, reflect b < 256 := by
  decide!

set_option maxRecDepth 100000 in
theorem reflectBitTable_length : reflectBitTable.length = 256 := by
  decide

theorem reflect_lt (b : Nat) : reflect b < 256 := by
  by_cases h : b < 256
  · exact reflect_lt_all b h
  · have hlen : reflectBitTable.length ≤ b := by
      have := reflectBitTable_length
      omega
    simp [reflect, List.getD_eq_getElem?_getD, List.getElem?_eq_none hlen]

theorem u16ToU08H_toU16 (a c : Nat) (ha : a < 256) (hc : c < 256) :
    u16ToU08H (toU16 a c) = a := by
  rw [toU16_eq a c ha hc]
  simp only [u16ToU08H, castU8, castU32, U08_BIT_COUNT, Nat.shiftRight_eq_div_pow]
  omega

theorem u16ToU08L_toU16 (a c : Nat) (ha : a < 256) (hc : c < 256) :
    u16ToU08L (toU16 a c) = c := by
  rw [toU16_eq a c ha hc]
  simp only [u16ToU08L, castU8, U08_BIT_MASK, land_255]
  omega

theorem testBit_toU16 (a c i : Nat) (ha : a < 256) (hc : c < 256) :
    (toU16 a c).testBit i = if i < 8 then c.testBit i else a.testBit (i - 8) := by
  rw [toU16_eq a c ha hc, Nat.mul_comm]
  exact Nat.testBit_mul_pow_two_add a (i := 8) hc i

theorem testBit_u16ToU08H (w i : Nat) (hw : w < 2 ^ 16) (hi : i < 8) :
    (u16ToU08H w).testBit i = w.testBit (i + 8) := by
  simp only [u16ToU08H, castU8, castU32, U08_BIT_COUNT]
  rw [Nat.mod_eq_of_lt (show w < 2 ^ 32 by omega), Nat.testBit_mod_two_pow,
    Nat.testBit_shiftRight]
  simp [hi, Nat.add_comm]

theorem testBit_u16ToU08L (w i : Nat) (hi : i < 8) :
    (u16ToU08L w).testBit i = w.testBit i := by
  simp only [u16ToU08L, castU8, U08_BIT_MASK, land_255]
  have e : w % 256 % 2 ^ 8 = w % 2 ^ 8 := by omega
  rw [e, Nat.testBit_mod_two_pow]
  simp [hi]

theorem testBit_toU32 (b3 b2 b1 b0 i : Nat) (h3 : b3 < 256) (h2 : b2 < 256) (h1 : b1 < 256)
    (h0 : b0 < 256) :
    (toU32 b3 b2 b1 b0).testBit i =
      if i < 8 then b0.testBit i
      else if i < 16 then b1.testBit (i - 8)
      else if i < 24 then b2.testBit (i - 16)
      else b3.testBit (i - 24) := by
  rw [toU32_eq b3 b2 b1 b0 h3 h2 h1 h0]
  have e : b3 * 16777216 + b2 * 65536 + b1 * 256 + b0 =
      2 ^ 8 * (2 ^ 8 * (2 ^ 8 * b3 + b2) + b1) + b0 := by omega
  rw [e, Nat.testBit_mul_pow_two_add _ (i := 8) h0 i]
  by_cases c0 : i < 8
  · simp [c0]
  · rw [if_neg c0, if_neg c0, Nat.testBit_mul_pow_two_add _ (i := 8) h1 (i - 8)]
    by_cases c1 : i < 16
    · have : i - 8 < 8 := by omega
      simp [c1, this]
    · have n1 : ¬ i - 8 < 8 := by omega
      rw [if_neg c1, if_neg n1, Nat.testBit_mul_pow_two_add _ (i := 8) h2 (i - 8 - 8)]
      have e2 : i - 8 - 8 = i - 16 := by omega
      have e3 : i - 8 - 8 - 8 = i - 24 := by omega
      by_cases c2 : i < 24
      · have n2 : i - 8 - 8 < 8 := by omega
        rw [if_pos n2, if_pos c2, e2]
      · have n2 : ¬ i - 8 - 8 < 8 := by omega
        rw [if_neg n2, if_neg c2, e3]

theorem testBit_u32ToU16H (d i : Nat) (hi : i < 16) :
    (u32ToU16H d).testBit i = d.testBit (i + 16) := by
  simp only [u32ToU16H, castU16, U16_BIT_COUNT]
  rw [Nat.testBit_mod_two_pow, Nat.testBit_shiftRight]
  simp [hi, Nat.add_comm]

theorem testBit_u32ToU16L (d i : Nat) (hi : i < 16) :
    (u32ToU16L d).testBit i = d.testBit i := by
  simp only [u32ToU16L, castU16, U16_BIT_MASK, land_65535]
  have e : d % 65536 % 2 ^ 16 = d % 2 ^ 16 := by omega
  rw [e, Nat.testBit_mod_two_pow]
  simp [hi]

theorem u32ToU16H_lt (d : Nat) : u32ToU16H d < 2 ^ 16 := by
  simp only [u32ToU16H, castU16]; omega

theorem u32ToU16L_lt (d : Nat) : u32ToU16L d < 2 ^ 16 := by
  simp only [u32ToU16L, castU16]; omega

/-! ## The claims on the stored word, the geometry and the bit primitives -/

/-- Claim C11 fails for extraction: extracting `Signal<uint16_t, 4, 12>` into a
cleared signal from a buffer whose bytes are all `0xFF` leaves the stored word
`0xFFF8`, whose low `16 - 12` bits are not zero. -/
theorem extract_copies_neighbouring_bits :
    ((Buffer.mk 0 Status.Ok [0xFF, 0xFF, 0xFF, 0xFF]).extract
        (Signal.ctor Ty.u16 4 12).clear).2.storedWord = 0xFFF8 ∧
      ¬ (((Buffer.mk 0 Status.Ok [0xFF, 0xFF, 0xFF, 0xFF]).extract
        (Signal.ctor Ty.u16 4 12).clear).2.storedWord % 2 ^ (8 * Ty.u16.sizeof - 12) = 0) := by
  decide

/-- Claim C11 as amended: for `T` one of `uint8_t`, `uint16_t`, `uint32_t` and
`1 <= BitSize <= 8 * sizeof(T)`, after `write`, after `clear` and after
construction the stored word has its low `8 * sizeof(T) - BitSize` bits equal
to zero.  The storage is the array `mData[sizeof(T)]`. -/
theorem write_and_clear_keep_low_bits_zero (s : Signal) (v : Nat)
    (hT : s.T = Ty.u8 ∨ s.T = Ty.u16 ∨ s.T = Ty.u32)
    (hlen : s.mData.length = s.T.sizeof)
    (h1 : 1 ≤ s.BitSize) (hB : s.BitSize ≤ 8 * s.T.sizeof) :
    (∃ s1, s.write v = some s1 ∧ s1.storedWord % 2 ^ (8 * s.T.sizeof - s.BitSize) = 0) ∧
      s.clear.storedWord % 2 ^ (8 * s.T.sizeof - s.BitSize) = 0 ∧
      (Signal.ctor s.T s.BitPos s.BitSize).storedWord % 2 ^ (8 * s.T.sizeof - s.BitSize) = 0 := by
  have hz : ∀ n : Nat, (List.replicate n 0).foldl (fun acc byte => acc * 256 + byte) 0 = 0 :=
    storedWord_replicate_zero
  refine ⟨?_, ?_, ?_⟩
  · rcases hT with hT | hT | hT
    · refine ⟨s.write_u8 v, by simp [Signal.write, hT], ?_⟩
      rw [hT] at hlen hB
      rw [storedWord_write_u8 s v hlen]
      simp only [Signal.bitMaskShift, hT, Ty.sizeof, U08_BIT_COUNT, castU8, Nat.shiftLeft_eq]
      exact mul_pow_mod_pow v _ 8 (by simp only [Ty.sizeof] at hB; omega)
    · refine ⟨s.write_u16 v, by simp [Signal.write, hT], ?_⟩
      rw [hT] at hlen hB
      rw [storedWord_write_u16 s v hlen]
      simp only [Signal.bitMaskShift, hT, Ty.sizeof, U08_BIT_COUNT, castU16, Nat.shiftLeft_eq]
      exact mul_pow_mod_pow v _ 16 (by simp only [Ty.sizeof] at hB; omega)
    · refine ⟨s.write_u32 v, by simp [Signal.write, hT], ?_⟩
      rw [hT] at hlen hB
      rw [storedWord_write_u32 s v hlen]
      simp only [Signal.bitMaskShift, hT, Ty.sizeof, U08_BIT_COUNT, castU32, Nat.shiftLeft_eq]
      exact mul_pow_mod_pow v _ 32 (by simp only [Ty.sizeof] at hB; omega)
  · simp only [Signal.clear, Signal.storedWord, hz, Nat.zero_mod]
  · simp only [Signal.ctor, Signal.storedWord, hz, Nat.zero_mod]

/-- Instance of the theorem for claim C11 at a concrete input. -/
theorem write_and_clear_keep_low_bits_zero_witness :
    ((Signal.ctor Ty.u16 4 12).T = Ty.u8 ∨ (Signal.ctor Ty.u16 4 12).T = Ty.u16 ∨
        (Signal.ctor Ty.u16 4 12).T = Ty.u32) ∧
      (Signal.ctor Ty.u16 4 12).mData.length = (Signal.ctor Ty.u16 4 12).T.sizeof ∧
      1 ≤ (Signal.ctor Ty.u16 4 12).BitSize ∧
      (Signal.ctor Ty.u16 4 12).BitSize ≤ 8 * (Signal.ctor Ty.u16 4 12).T.sizeof ∧
      ∃ s1, (Signal.ctor Ty.u16 4 12).write 0xABC = some s1 ∧
        s1.storedWord % 2 ^ (8 * (Signal.ctor Ty.u16 4 12).T.sizeof -
          (Signal.ctor Ty.u16 4 12).BitSize) = 0 :=
  ⟨by decide, by decide, by decide, by decide,
    (write_and_clear_keep_low_bits_zero (Signal.ctor Ty.u16 4 12) 0xABC (by decide) (by decide)
      (by decide) (by decide)).1⟩

/-- Claim C12 fails where the `std::size_t` sum wraps: for
`Signal<uint8_t, 0, 2^64 - 1>` the sum `0 + (2^64 - 1) + 7` wraps to `6`, so
`sizeInBuffer()` is `0`, while the ceiling of `(0 + 2^64 - 1) / 8` is `2^61`. -/
theorem sizeInBuffer_wraps_at_max_bitsize :
    (Signal.ctor Ty.u8 0 (2 ^ 64 - 1)).sizeInBuffer = 0 ∧
      ((0 % 8 + (2 ^ 64 - 1) + 7) / 8 : Nat) = 2 ^ 61 ∧
      (Signal.ctor Ty.u8 0 (2 ^ 64 - 1)).sizeInBuffer ≠
        ⌈(((Signal.ctor Ty.u8 0 (2 ^ 64 - 1)).BitPos % 8 +
          (Signal.ctor Ty.u8 0 (2 ^ 64 - 1)).BitSize : ℕ) : ℚ) / 8⌉₊ := by
  refine ⟨by decide, by decide, ?_⟩
  rw [natCeil_div_eight]
  decide

/-- Claim C12 as amended: when `(BitPos mod 8) + w + 7` is a `std::size_t`
value (below `2^64`), `w` being 1 for `bool` and `BitSize` otherwise,
`sizeInBuffer()` equals the ceiling of `((BitPos mod 8) + w) / 8`, which is
`((BitPos mod 8) + w + 7) div 8`. -/
theorem sizeInBuffer_eq_ceil (s : Signal)
    (hfit : s.BitPos % 8 + (if s.T = Ty.bool then 1 else s.BitSize) + 7 < 2 ^ 64) :
    s.sizeInBuffer = ⌈((s.BitPos % 8 + (if s.T = Ty.bool then 1 else s.BitSize) : ℕ) : ℚ) / 8⌉₊ ∧
      s.sizeInBuffer = (s.BitPos % 8 + (if s.T = Ty.bool then 1 else s.BitSize) + 7) / 8 := by
  have e : s.sizeInBuffer = (s.BitPos % 8 + (if s.T = Ty.bool then 1 else s.BitSize) + 7) / 8 := by
    simp only [Signal.sizeInBuffer, Signal.BYTE_SIZE, Signal.BIT_OFFSET, Signal.typeBitSize,
      Signal.BIT_MAX_POS, U08_BIT_COUNT, SIZE_MOD]
    rw [Nat.mod_eq_of_lt (by omega)]
  exact ⟨by rw [natCeil_div_eight]; exact e, e⟩

/-- Instance of the theorem for claim C12 at a concrete input. -/
theorem sizeInBuffer_eq_ceil_witness :
    (Signal.ctor Ty.u16 4 12).BitPos % 8 +
        (if (Signal.ctor Ty.u16 4 12).T = Ty.bool then 1 else (Signal.ctor Ty.u16 4 12).BitSize) +
        7 < 2 ^ 64 ∧
      (Signal.ctor Ty.u16 4 12).sizeInBuffer = 2 :=
  ⟨by decide,
    (sizeInBuffer_eq_ceil (Signal.ctor Ty.u16 4 12) (by decide)).2.trans (by decide)⟩

/-- Claim C13: `writeLShift() = (BitPos + 1) mod 8`,
`writeRShift() = (8 - writeLShift()) mod 8`, `readRShift() = writeLShift()`,
`readLShift() = writeRShift()`, and all four lie in `0..7`. -/
theorem shift_geometry (s : Signal) :
    s.writeLShift = (s.BitPos + 1) % 8 ∧
      s.writeRShift = (8 - s.writeLShift) % 8 ∧
      s.readRShift = s.writeLShift ∧
      s.readLShift = s.writeRShift ∧
      s.writeLShift < 8 ∧ s.writeRShift < 8 ∧ s.readRShift < 8 ∧ s.readLShift < 8 := by
  refine ⟨rfl, rfl, rfl, rfl, ?_, ?_, ?_, ?_⟩ <;>
    simp only [Signal.writeLShift, Signal.writeRShift, Signal.readRShift, Signal.readLShift,
      U08_BIT_COUNT] <;>
    omega

/-- Claim C14: `lsbPos(0) = -1`, and for a 32-bit `x != 0` the result `p` of
`lsbPos(x)` satisfies `0 <= p <= 31`, `x AND (1 << p) != 0` and
`x AND ((1 << p) - 1) = 0`. -/
theorem lsbPos_is_lowest_set_bit (x : Nat) (hx0 : x ≠ 0) (hx : x < 2 ^ 32) :
    lsbPos 0 = -1 ∧
      ∃ p : Nat, lsbPos x = (p : Int) ∧ p ≤ 31 ∧ x &&& (1 <<< p) ≠ 0 ∧
        x &&& ((1 <<< p) - 1) = 0 := by
  refine ⟨by decide, ?_⟩
  obtain ⟨k, hk, hand, hbit, hmod⟩ := land_neg_eq_two_pow 32 x (Nat.pos_of_ne_zero hx0) hx
  refine ⟨k, ?_, by omega, ?_, ?_⟩
  · simp only [lsbPos, if_pos hx0]
    rw [twosComplement_eq x (Nat.pos_of_ne_zero hx0) hx, hand]
    exact deBruijn_lookup k hk
  · rw [Nat.one_shiftLeft]
    intro h
    have h2 : (x &&& 2 ^ k).testBit k = true := by
      rw [Nat.testBit_and, hbit, Nat.testBit_two_pow_self]
      rfl
    rw [h, Nat.zero_testBit] at h2
    exact Bool.false_ne_true h2
  · rw [Nat.one_shiftLeft, Nat.and_pow_two_sub_one_eq_mod]
    exact hmod

/-- Instance of the theorem for claim C14 at a concrete input. -/
theorem lsbPos_is_lowest_set_bit_witness :
    ((774355515 : Nat) ≠ 0 ∧ (774355515 : Nat) < 2 ^ 32) ∧
      (lsbPos 0 = -1 ∧
        ∃ p : Nat, lsbPos 774355515 = (p : Int) ∧ p ≤ 31 ∧ 774355515 &&& (1 <<< p) ≠ 0 ∧
          774355515 &&& ((1 <<< p) - 1) = 0) :=
  ⟨by decide, lsbPos_is_lowest_set_bit 774355515 (by decide) (by decide)⟩

/-- Claim C15: for every byte `b` and `i` in `0..7`, bit `i` of `reflect(b)` is
bit `7 - i` of `b`, and the table lookup agrees with the shift loop of the test
file on `b`. -/
theorem reflect_table_is_bit_reversal (b i : Nat) (hb : b < 256) (hi : i < 8) :
    (reflect b).testBit i = b.testBit (7 - i) ∧
      TestBitBase.reflect b = some (reflect b) :=
  ⟨reflect_testBit_all b hb i hi, testReflect_eq_all b hb⟩

/-- Instance of the theorem for claim C15 at a concrete input. -/
theorem reflect_table_is_bit_reversal_witness :
    ((0x1D : Nat) < 256 ∧ (2 : Nat) < 8) ∧
      ((reflect 0x1D).testBit 2 = (0x1D : Nat).testBit (7 - 2) ∧
        TestBitBase.reflect 0x1D = some (reflect 0x1D)) :=
  ⟨by decide, reflect_table_is_bit_reversal 0x1D 2 (by decide) (by decide)⟩

/-- Claim C16: `reflect(reflect(b)) = b` for every byte `b`. -/
theorem reflect_involution (b : Nat) (hb : b < 256) : reflect (reflect b) = b :=
  reflect_reflect_all b hb

/-- Instance of the theorem for claim C16 at a concrete input. -/
theorem reflect_involution_witness :
    (0x1D : Nat) < 256 ∧ reflect (reflect 0x1D) = 0x1D :=
  ⟨by decide, reflect_involution 0x1D (by decide)⟩

/-- Claim C17 fails as stated, in both modes, at `w = 0x0001`:
`reflect(w, false)` does not keep the byte order and `reflect(w, true)` does not
swap the bytes. -/
theorem reflectU16_modes_not_as_described :
    ¬ (u16ToU08H (reflectU16 0x0001 false) = reflect (u16ToU08H 0x0001) ∧
        u16ToU08L (reflectU16 0x0001 false) = reflect (u16ToU08L 0x0001)) ∧
      ¬ (u16ToU08H (reflectU16 0x0001 true) = reflect (u16ToU08L 0x0001) ∧
        u16ToU08L (reflectU16 0x0001 true) = reflect (u16ToU08H 0x0001)) := by
  decide

/-- Claim C17 as amended, the two modes exchanged: for a 16-bit `w` with high
byte `h` and low byte `l`, `reflect(w, true)` has high byte `reflect(h)` and low
byte `reflect(l)` (byte order kept), and `reflect(w, false)` has high byte
`reflect(l)` and low byte `reflect(h)` (byte order reversed too). -/
theorem reflectU16_modes (w : Nat) (hw : w < 2 ^ 16) :
    (u16ToU08H (reflectU16 w true) = reflect (u16ToU08H w) ∧
        u16ToU08L (reflectU16 w true) = reflect (u16ToU08L w)) ∧
      (u16ToU08H (reflectU16 w false) = reflect (u16ToU08L w) ∧
        u16ToU08L (reflectU16 w false) = reflect (u16ToU08H w)) := by
  have et : reflectU16 w true = toU16 (reflect (u16ToU08H w)) (reflect (u16ToU08L w)) := by
    simp [reflectU16, reflect]
  have ef : reflectU16 w false = toU16 (reflect (u16ToU08L w)) (reflect (u16ToU08H w)) := by
    simp [reflectU16, reflect]
  rw [et, ef]
  exact ⟨⟨u16ToU08H_toU16 _ _ (reflect_lt _) (reflect_lt _),
      u16ToU08L_toU16 _ _ (reflect_lt _) (reflect_lt _)⟩,
    ⟨u16ToU08H_toU16 _ _ (reflect_lt _) (reflect_lt _),
      u16ToU08L_toU16 _ _ (reflect_lt _) (reflect_lt _)⟩⟩

/-- Instance of the theorem for claim C17 at a concrete input. -/
theorem reflectU16_modes_witness :
    (0x0001 : Nat) < 2 ^ 16 ∧
      ((u16ToU08H (reflectU16 0x0001 true) = reflect (u16ToU08H 0x0001) ∧
          u16ToU08L (reflectU16 0x0001 true) = reflect (u16ToU08L 0x0001)) ∧
        (u16ToU08H (reflectU16 0x0001 false) = reflect (u16ToU08L 0x0001) ∧
          u16ToU08L (reflectU16 0x0001 false) = reflect (u16ToU08H 0x0001))) :=
  ⟨by decide, reflectU16_modes 0x0001 (by decide)⟩

/-- Claim C18: for a 16-bit `w` and `i` in `0..15`, bit `i` of
`reflect(w, false)` is bit `15 - i` of `w`; with the test cases
`0x0001 -> 0x8000`, `0xC000 -> 0x0003`, `0x0010 -> 0x0800`. -/
theorem reflectU16_false_reverses_bits (w i : Nat) (hw : w < 2 ^ 16) (hi : i < 16) :
    (reflectU16 w false).testBit i = w.testBit (15 - i) ∧
      reflectU16 0x0001 false = 0x8000 ∧ reflectU16 0xC000 false = 0x0003 ∧
      reflectU16 0x0010 false = 0x0800 := by
  refine ⟨?_, by decide, by decide, by decide⟩
  have e : reflectU16 w false = toU16 (reflect (u16ToU08L w)) (reflect (u16ToU08H w)) := by
    simp [reflectU16, reflect]
  rw [e, testBit_toU16 _ _ i (reflect_lt _) (reflect_lt _)]
  by_cases c : i < 8
  · rw [if_pos c, reflect_testBit_all _ (u16ToU08H_lt w) i c,
      testBit_u16ToU08H w (7 - i) hw (by omega)]
    congr 1
    omega
  · rw [if_neg c, reflect_testBit_all _ (u16ToU08L_lt w) (i - 8) (by omega),
      testBit_u16ToU08L w _ (by omega)]
    congr 1
    omega

/-- Instance of the theorem for claim C18 at a concrete input. -/
theorem reflectU16_false_reverses_bits_witness :
    ((0x0010 : Nat) < 2 ^ 16 ∧ (11 : Nat) < 16) ∧
      (reflectU16 0x0010 false).testBit 11 = (0x0010 : Nat).testBit (15 - 11) :=
  ⟨by decide, (reflectU16_false_reverses_bits 0x0010 11 (by decide) (by decide)).1⟩

/-- Claim C19: for a 16-bit `w` with high byte `h` and low byte `l`,
`reflect(w, true) = toU16(reflect(h), reflect(l))`; with the test cases
`0x0001 -> 0x0080`, `0xC000 -> 0x0300`, `0x8000 -> 0x0100`. -/
theorem reflectU16_true_reflects_bytes_in_place (w : Nat) (hw : w < 2 ^ 16) :
    reflectU16 w true = toU16 (reflect (u16ToU08H w)) (reflect (u16ToU08L w)) ∧
      reflectU16 0x0001 true = 0x0080 ∧ reflectU16 0xC000 true = 0x0300 ∧
      reflectU16 0x8000 true = 0x0100 := by
  refine ⟨?_, by decide, by decide, by decide⟩
  simp [reflectU16, reflect]

/-- Instance of the theorem for claim C19 at a concrete input. -/
theorem reflectU16_true_reflects_bytes_in_place_witness :
    (0xC000 : Nat) < 2 ^ 16 ∧
      reflectU16 0xC000 true = toU16 (reflect (u16ToU08H 0xC000)) (reflect (u16ToU08L 0xC000)) :=
  ⟨by decide, (reflectU16_true_reflects_bytes_in_place 0xC000 (by decide)).1⟩

/-- Claim C20: for a 32-bit `d` and `i` in `0..31`, bit `i` of
`reflect(d, false)` is bit `31 - i` of `d`; with the test cases
`0x00000001 -> 0x80000000`, `0x0000C000 -> 0x00030000`,
`0x00000030 -> 0x0C000000`. -/
theorem reflectU32_false_reverses_bits (d i : Nat) (hd : d < 2 ^ 32) (hi : i < 32) :
    (reflectU32 d false).testBit i = d.testBit (31 - i) ∧
      reflectU32 0x00000001 false = 0x80000000 ∧ reflectU32 0x0000C000 false = 0x00030000 ∧
      reflectU32 0x00000030 false = 0x0C000000 := by
  refine ⟨?_, by decide, by decide, by decide⟩
  have e : reflectU32 d false =
      toU32 (reflect (u16ToU08L (u32ToU16L d))) (reflect (u16ToU08H (u32ToU16L d)))
        (reflect (u16ToU08L (u32ToU16H d))) (reflect (u16ToU08H (u32ToU16H d))) := by
    simp [reflectU32, reflect]
  rw [e, testBit_toU32 _ _ _ _ i (reflect_lt _) (reflect_lt _) (reflect_lt _) (reflect_lt _)]
  by_cases c0 : i < 8
  · rw [if_pos c0, reflect_testBit_all _ (u16ToU08H_lt _) i c0,
      testBit_u16ToU08H _ (7 - i) (u32ToU16H_lt d) (by omega),
      testBit_u32ToU16H d _ (by omega)]
    congr 1
    omega
  · rw [if_neg c0]
    by_cases c1 : i < 16
    · rw [if_pos c1, reflect_testBit_all _ (u16ToU08L_lt _) (i - 8) (by omega),
        testBit_u16ToU08L _ _ (by omega), testBit_u32ToU16H d _ (by omega)]
      congr 1
      omega
    · rw [if_neg c1]
      by_cases c2 : i < 24
      · rw [if_pos c2, reflect_testBit_all _ (u16ToU08H_lt _) (i - 16) (by omega),
          testBit_u16ToU08H _ _ (u32ToU16L_lt d) (by omega),
          testBit_u32ToU16L d _ (by omega)]
        congr 1
        omega
      · rw [if_neg c2, reflect_testBit_all _ (u16ToU08L_lt _) (i - 24) (by omega),
          testBit_u16ToU08L _ _ (by omega), testBit_u32ToU16L d _ (by omega)]
        congr 1
        omega

/-- Instance of the theorem for claim C20 at a concrete input. -/
theorem reflectU32_false_reverses_bits_witness :
    ((0x0000C000 : Nat) < 2 ^ 32 ∧ (16 : Nat) < 32) ∧
      (reflectU32 0x0000C000 false).testBit 16 = (0x0000C000 : Nat).testBit (31 - 16) :=
  ⟨by decide, (reflectU32_false_reverses_bits 0x0000C000 16 (by decide) (by decide)).1⟩

/-! ## Auxiliary facts for parity, the closed forms and the round trip -/

theorem popCountLow_add (a b x : Nat) :
    popCountLow (a + b) x = popCountLow a x + popCountLow b (x >>> a) := by
  simp only [popCountLow, List.range_add, List.filter_append, List.length_append,
    List.filter_map, List.length_map]
  congr 2
  apply List.filter_congr
  intro i _
  simp [Nat.testBit_shiftRight]

theorem popCountLow_mod (n x : Nat) : popCountLow n (x % 2 ^ n) = popCountLow n x := by
  simp only [popCountLow]
  congr 1
  apply List.filter_congr
  intro i hi
  rw [Nat.testBit_mod_two_pow]
  simp [List.mem_range.mp hi]

set_option maxRecDepth 1000000 in
theorem parityTable_eq_all : ∀ b < 256, parityTable.getD b 0 = popCountLow 8 b % 2 := by
  decide!

theorem xor_bits : ∀ a < 2, ∀ b < 2, a ^^^ b = (a + b) % 2 := by
  decide

theorem popCount32_split (x : Nat) :
    popCount32 x = popCountLow 8 (x % 256) + popCountLow 8 (x / 256 % 256) +
      popCountLow 8 (x / 65536 % 256) + popCountLow 8 (x / 16777216 % 256) := by
  have e : popCount32 x = popCountLow (8 + (8 + (8 + 8))) x := rfl
  rw [e, popCountLow_add, popCountLow_add, popCountLow_add]
  have h0 := popCountLow_mod 8 x
  have h1 := popCountLow_mod 8 (x >>> 8)
  have h2 := popCountLow_mod 8 (x >>> 8 >>> 8)
  have h3 := popCountLow_mod 8 (x >>> 8 >>> 8 >>> 8)
  rw [← h0, ← h1, ← h2, ← h3]
  simp only [Nat.shiftRight_eq_div_pow]
  have e1 : x / 2 ^ 8 % 2 ^ 8 = x / 256 % 256 := by omega
  have e2 : x / 2 ^ 8 / 2 ^ 8 % 2 ^ 8 = x / 65536 % 256 := by omega
  have e3 : x / 2 ^ 8 / 2 ^ 8 / 2 ^ 8 % 2 ^ 8 = x / 16777216 % 256 := by omega
  have e0 : x % 2 ^ 8 = x % 256 := by omega
  rw [e0, e1, e2, e3]
  omega

theorem u32ToArray_replicate (x : Nat) :
    u32ToArray x (List.replicate 4 0) =
      [u16ToU08H (u32ToU16H x), u16ToU08L (u32ToU16H x),
        u16ToU08H (u32ToU16L x), u16ToU08L (u32ToU16L x)] := by
  rfl

theorem u32_bytes (x : Nat) (hx : x < 2 ^ 32) :
    u16ToU08H (u32ToU16H x) = x / 16777216 % 256 ∧
      u16ToU08L (u32ToU16H x) = x / 65536 % 256 ∧
      u16ToU08H (u32ToU16L x) = x / 256 % 256 ∧
      u16ToU08L (u32ToU16L x) = x % 256 := by
  simp only [u16ToU08H, u16ToU08L, u32ToU16H, u32ToU16L, U08_BIT_MASK, U16_BIT_MASK,
    U08_BIT_COUNT, U16_BIT_COUNT, land_255, land_65535, castU8, castU16,
    castU32, Nat.shiftRight_eq_div_pow]
  omega

/-- XOR of the four table entries, as `parity` computes it. -/
theorem parity_xor_eq (x : Nat) :
    parityTable.getD (x % 256) 0 ^^^ parityTable.getD (x / 256 % 256) 0 ^^^
        parityTable.getD (x / 65536 % 256) 0 ^^^ parityTable.getD (x / 16777216 % 256) 0 =
      popCount32 x % 2 := by
  have t0 := parityTable_eq_all (x % 256) (by omega)
  have t1 := parityTable_eq_all (x / 256 % 256) (by omega)
  have t2 := parityTable_eq_all (x / 65536 % 256) (by omega)
  have t3 := parityTable_eq_all (x / 16777216 % 256) (by omega)
  rw [popCount32_split x, t0, t1, t2, t3]
  generalize popCountLow 8 (x % 256) = p0
  generalize popCountLow 8 (x / 256 % 256) = p1
  generalize popCountLow 8 (x / 65536 % 256) = p2
  generalize popCountLow 8 (x / 16777216 % 256) = p3
  rw [xor_bits (p0 % 2) (by omega) (p1 % 2) (by omega),
    xor_bits _ (by omega) (p2 % 2) (by omega),
    xor_bits _ (by omega) (p3 % 2) (by omega)]
  omega

theorem parity_eq (x : Nat) (hx : x < 2 ^ 32) (k : Parity) :
    parity x k = (popCount32 x + k.toNat) % 2 := by
  obtain ⟨h3, h2, h1, h0⟩ := u32_bytes x hx
  simp only [parity, u32ToArray_replicate, castU8, List.getD_cons_zero,
    List.getD_cons_succ, h3, h2, h1, h0]
  rw [parity_xor_eq x]
  have hk : k.toNat < 2 := by cases k <;> decide
  have e1 : popCount32 x % 2 % 2 ^ 8 = popCount32 x % 2 := by omega
  have e2 : k.toNat % 2 ^ 8 = k.toNat := by omega
  rw [e1, e2, xor_bits _ (by omega) _ hk]
  omega

theorem toU32_u16_eq (h l : Nat) (hh : h < 2 ^ 16) (hl : l < 2 ^ 16) :
    toU32_u16 h l = h * 65536 + l := by
  simp only [toU32_u16, U16_BIT_COUNT, castU32, Nat.shiftLeft_eq]
  rw [lor_eq_add 16 _ _ (by omega) (by omega)]
  omega

theorem land_128 (x : Nat) : x &&& 128 = if x.testBit 7 then 128 else 0 := by
  apply Nat.eq_of_testBit_eq
  intro i
  rw [Nat.testBit_and]
  have h128 : (128 : Nat) = 2 ^ 7 := rfl
  by_cases hi : i = 7
  · subst hi
    cases hx : x.testBit 7
    · simp
    · simp [h128, Nat.testBit_two_pow_self]
  · have h2 : (128 : Nat).testBit i = false := by
      rw [h128, Nat.testBit_two_pow]
      simpa using fun h => hi h.symm
    rw [h2, Bool.and_false]
    cases x.testBit 7
    · simp
    · simp [h2]

namespace Buffer

theorem insertBody_fst_src (signal : Signal) (i rem : Nat) (b : Buffer) :
    (insertBody signal i rem b).1 =
      b.orAt (i + signal.position)
        (rem ||| castU8 (insertSrc signal i >>> signal.writeRShift)) :=
  insertBody_fst signal i rem b

theorem insertBody_snd_src (signal : Signal) (i rem : Nat) (b : Buffer) :
    (insertBody signal i rem b).2 =
      if signal.writeLShift ≠ 0 then castU8 (insertSrc signal i <<< signal.writeLShift)
      else rem :=
  insertBody_snd signal i rem b

/-- Closed form of the bytes written by `k` passes of the insertion loop
entered at index `i` with remainder `rem`, all positions being in range. -/
theorem insertIter_getD_inside (signal : Signal) (j : Nat) :
    ∀ (k i rem : Nat) (b : Buffer),
      i + k + signal.position ≤ b.size →
      i + signal.position ≤ j → j < i + k + signal.position →
      (insertIter signal k i rem b).mBuffer.getD j 0 =
        b.mBuffer.getD j 0 |||
          ((if j = i + signal.position then rem
            else if signal.writeLShift ≠ 0 then
              castU8 (insertSrc signal (j - signal.position - 1) <<< signal.writeLShift)
            else rem) |||
            castU8 (insertSrc signal (j - signal.position) >>> signal.writeRShift)) := by
  intro k
  induction k with
  | zero => intro i rem b _ h1 h2; omega
  | succ k ih =>
    intro i rem b hfit h1 h2
    rw [insertIter]
    by_cases hj : j = i + signal.position
    · rw [insertIter_getD_outside signal j k (i + 1) _ _ (Or.inl (by omega)),
        insertBody_fst_src, orAt_getD, if_pos ⟨hj, by omega⟩, if_pos hj]
      have e : j - signal.position = i := by omega
      rw [e]
    · have hsz : (insertBody signal i rem b).1.size = b.size := by
        rw [insertBody_fst_src, orAt_size]
      rw [ih (i + 1) _ _ (by rw [hsz]; omega) (by omega) (by omega), insertBody_fst_src,
        orAt_getD, if_neg (fun h => hj h.1), if_neg hj, insertBody_snd_src]
      by_cases hj1 : j = i + 1 + signal.position
      · have e : j - signal.position - 1 = i := by omega
        rw [if_pos hj1, e]
      · rw [if_neg hj1]
        by_cases hL : signal.writeLShift ≠ 0
        · simp only [if_pos hL]
        · simp only [if_neg hL]

theorem insertIter_status_inside (signal : Signal) :
    ∀ (k i rem : Nat) (b : Buffer), i + k + signal.position ≤ b.size →
      (insertIter signal k i rem b).mStatus = b.mStatus := by
  intro k
  induction k with
  | zero => intro i rem b _; rfl
  | succ k ih =>
    intro i rem b hfit
    have hsz : (insertBody signal i rem b).1.size = b.size := by
      rw [insertBody_fst_src, orAt_size]
    rw [insertIter, ih _ _ _ (by rw [hsz]; omega), insertBody_fst_src, orAt_status,
      if_pos (by omega)]

end Buffer

theorem getD_lt_of_forall (l : List Nat) (hbytes : ∀ x ∈ l, x < 256) (i : Nat) :
    l.getD i 0 < 256 := by
  rw [List.getD_eq_getElem?_getD]
  cases h : l[i]? with
  | none => simp
  | some x => simpa using hbytes x (List.getElem?_mem h)

theorem insertSrc_eq (signal : Signal) (i : Nat) :
    Buffer.insertSrc signal i = if i < signal.T.sizeof then signal.mData.getD i 0 else 0 := by
  unfold Buffer.insertSrc Signal.typeSize Signal.index
  by_cases h : i < signal.T.sizeof
  · simp [h, Signal.load]
  · simp [h]

theorem insertSrc_lt (signal : Signal) (hbytes : ∀ x ∈ signal.mData, x < 256) (i : Nat) :
    Buffer.insertSrc signal i < 256 := by
  rw [insertSrc_eq]
  split
  · exact getD_lt_of_forall _ hbytes i
  · omega

namespace Signal

theorem orAt_shape (s : Signal) (i x : Nat) :
    (s.orAt i x).T = s.T ∧ (s.orAt i x).BitPos = s.BitPos ∧
      (s.orAt i x).BitSize = s.BitSize ∧ (s.orAt i x).mData.length = s.mData.length := by
  unfold orAt index
  split <;> simp [store]

theorem orAt_getD_data (s : Signal) (i x j : Nat) :
    (s.orAt i x).mData.getD j 0 =
      if j = i ∧ i < s.T.sizeof ∧ i < s.mData.length then s.mData.getD j 0 ||| x
      else s.mData.getD j 0 := by
  unfold orAt index
  by_cases h : i < s.T.sizeof
  · simp only [h, if_true, store, load, getD_set, true_and]
    by_cases hj : j = i
    · subst hj
      simp
    · simp [hj]
  · simp [h, store]

end Signal

namespace Buffer

theorem readAt_of_lt {b : Buffer} {pos : Nat} (h : pos < b.size) :
    b.readAt pos = (b, b.mBuffer.getD pos 0) := by
  simp [readAt, index_of_lt h, load]

theorem extractBody_signal (i rem : Nat) (b : Buffer) (s : Signal)
    (hfit : i + s.position < b.size) (hwrap : i + s.position < SIZE_MOD) :
    (extractBody i rem b s).1 = b ∧
      (extractBody i rem b s).2.2 =
        (if s.readRShift ≠ 0 then castU8 (b.mBuffer.getD (i + s.position) 0 >>> s.readRShift)
          else rem) ∧
      (extractBody i rem b s).2.1.T = s.T ∧
      (extractBody i rem b s).2.1.BitPos = s.BitPos ∧
      (extractBody i rem b s).2.1.BitSize = s.BitSize ∧
      (extractBody i rem b s).2.1.mData.length = s.mData.length ∧
      ∀ j : Nat, (extractBody i rem b s).2.1.mData.getD j 0 =
        if j = i ∧ i < s.T.sizeof ∧ i < s.mData.length then
          s.mData.getD j 0 |||
            (rem ||| castU8 (b.mBuffer.getD (i + s.position) 0 <<< s.readLShift))
        else s.mData.getD j 0 := by
  have hpos : (i + s.position) % SIZE_MOD = i + s.position := Nat.mod_eq_of_lt hwrap
  simp only [extractBody_fst, extractBody_snd_fst, extractBody_snd_snd, hpos,
    readAt_of_lt hfit, Signal.typeSize]
  by_cases hts : i < s.T.sizeof
  · rw [if_pos hts]
    obtain ⟨h1, h2, h3, h4⟩ := Signal.orAt_shape s i
      (rem ||| castU8 (b.mBuffer.getD (i + s.position) 0 <<< s.readLShift))
    refine ⟨trivial, trivial, h1, h2, h3, h4, fun j => ?_⟩
    rw [Signal.orAt_getD_data]
  · rw [if_neg hts]
    refine ⟨trivial, trivial, rfl, rfl, rfl, rfl, fun j => ?_⟩
    have : ¬ (j = i ∧ i < s.T.sizeof ∧ i < s.mData.length) := fun h => hts h.2.1
    rw [if_neg this]

theorem geometry_of_bitPos {s t : Signal} (h : t.BitPos = s.BitPos) :
    t.position = s.position ∧ t.readRShift = s.readRShift ∧ t.readLShift = s.readLShift ∧
      t.writeLShift = s.writeLShift ∧ t.writeRShift = s.writeRShift := by
  simp only [Signal.position, Signal.readRShift, Signal.readLShift, Signal.writeLShift,
    Signal.writeRShift, h, and_self]

/-- Extraction loop from index `i` with all positions in range: the buffer is
untouched, the shape of the signal is kept and its bytes get the closed form. -/
theorem extractLoop_inside :
    ∀ (i rem : Nat) (b : Buffer) (s : Signal),
      i + s.position < b.size → i + s.position < SIZE_MOD →
      (extractLoop i rem b s).1 = b ∧
        (extractLoop i rem b s).2.T = s.T ∧
        (extractLoop i rem b s).2.BitPos = s.BitPos ∧
        (extractLoop i rem b s).2.BitSize = s.BitSize ∧
        (extractLoop i rem b s).2.mData.length = s.mData.length ∧
        ∀ j : Nat, (extractLoop i rem b s).2.mData.getD j 0 =
          if j ≤ i ∧ j < s.T.sizeof ∧ j < s.mData.length then
            s.mData.getD j 0 |||
              ((if j = i then rem
                else if s.readRShift ≠ 0 then
                  castU8 (b.mBuffer.getD (j + 1 + s.position) 0 >>> s.readRShift)
                else rem) |||
                castU8 (b.mBuffer.getD (j + s.position) 0 <<< s.readLShift))
          else s.mData.getD j 0 := by
  intro i
  induction i with
  | zero =>
    intro rem b s hfit hwrap
    obtain ⟨hb, _, hT, hP, hS, hlen, hget⟩ := extractBody_signal 0 rem b s hfit hwrap
    simp only [extractLoop]
    refine ⟨hb, hT, hP, hS, hlen, fun j => ?_⟩
    rw [hget]
    by_cases hj : j = 0
    · subst hj
      simp
    · have h1 : ¬ (j = 0 ∧ 0 < s.T.sizeof ∧ 0 < s.mData.length) := fun h => hj h.1
      have h2 : ¬ (j ≤ 0 ∧ j < s.T.sizeof ∧ j < s.mData.length) := fun h => hj (by omega)
      rw [if_neg h1, if_neg h2]
  | succ i ih =>
    intro rem b s hfit hwrap
    obtain ⟨hb, hrem, hT, hP, hS, hlen, hget⟩ := extractBody_signal (i + 1) rem b s hfit hwrap
    obtain ⟨gpos, gR, gL, _, _⟩ := geometry_of_bitPos hP
    rw [extractLoop, hb]
    obtain ⟨ib, iT, iP, iS, ilen, iget⟩ :=
      ih (extractBody (i + 1) rem b s).2.2 b (extractBody (i + 1) rem b s).2.1
        (by rw [gpos]; omega) (by rw [gpos]; omega)
    refine ⟨ib, iT.trans hT, iP.trans hP, iS.trans hS, ilen.trans hlen, fun j => ?_⟩
    rw [iget, hT, hlen, gpos, gR, gL, hrem, hget j]
    by_cases hj : j = i + 1
    · subst hj
      have n1 : ¬ (i + 1 ≤ i ∧ i + 1 < s.T.sizeof ∧ i + 1 < s.mData.length) := by omega
      rw [if_neg n1]
      by_cases hc : i + 1 < s.T.sizeof ∧ i + 1 < s.mData.length
      · rw [if_pos ⟨rfl, hc⟩, if_pos ⟨Nat.le_refl _, hc⟩, if_pos rfl]
      · have n2 : ¬ (i + 1 = i + 1 ∧ i + 1 < s.T.sizeof ∧ i + 1 < s.mData.length) :=
          fun h => hc h.2
        have n3 : ¬ (i + 1 ≤ i + 1 ∧ i + 1 < s.T.sizeof ∧ i + 1 < s.mData.length) :=
          fun h => hc h.2
        rw [if_neg n2, if_neg n3]
    · have n1 : ¬ (j = i + 1 ∧ i + 1 < s.T.sizeof ∧ i + 1 < s.mData.length) :=
        fun h => hj h.1
      rw [if_neg n1]
      by_cases hc : j ≤ i ∧ j < s.T.sizeof ∧ j < s.mData.length
      · have p2 : j ≤ i + 1 ∧ j < s.T.sizeof ∧ j < s.mData.length := ⟨by omega, hc.2⟩
        rw [if_pos hc, if_pos p2, if_neg hj]
        by_cases hji : j = i
        · subst hji
          rw [if_pos rfl]
        · rw [if_neg hji]
          by_cases hR : s.readRShift ≠ 0
          · simp only [if_pos hR]
          · simp only [if_neg hR]
      · have n2 : ¬ (j ≤ i + 1 ∧ j < s.T.sizeof ∧ j < s.mData.length) := by
          intro h
          exact hc ⟨by omega, h.2⟩
        rw [if_neg hc, if_neg n2]

theorem extractPasses_eq (i : Nat) : extractPasses i = (List.range (i + 1)).reverse := by
  induction i with
  | zero => rfl
  | succ i ih => rw [extractPasses, ih, List.range_succ (i + 1), List.reverse_append]; rfl

theorem extractPasses_length (i : Nat) : (extractPasses i).length = i + 1 := by
  rw [extractPasses_eq, List.length_reverse, List.length_range]

theorem insertPasses_eq (signal : Signal) :
    ∀ (k i : Nat), i + (k + 1) = max (i + 1) signal.sizeInBuffer →
      insertPasses signal i = List.range' i (k + 1) := by
  intro k
  induction k with
  | zero =>
    intro i h
    rw [insertPasses, if_neg (by omega)]
    rfl
  | succ k ih =>
    intro i h
    rw [insertPasses, if_pos (by omega), ih (i + 1) (by omega)]
    rfl

theorem insertLoop_eq_foldl (signal : Signal) :
    ∀ (k i rem : Nat) (b : Buffer), signal.sizeInBuffer - i = k →
      insertLoop signal i rem b =
        ((insertPasses signal i).foldl
          (fun (st : Buffer × Nat) (j : Nat) => insertBody signal j st.2 st.1) (b, rem)).1 := by
  intro k
  induction k using Nat.strong_induction_on with
  | _ k ih =>
    intro i rem b hk
    rw [insertLoop, insertPasses]
    by_cases h : i + 1 < signal.sizeInBuffer
    · rw [if_pos h, if_pos h, List.foldl_cons]
      exact ih (signal.sizeInBuffer - (i + 1)) (by omega) (i + 1) _ _ rfl
    · rw [if_neg h, if_neg h]
      rfl

theorem extractLoop_eq_foldl :
    ∀ (i rem : Nat) (b : Buffer) (signal : Signal),
      extractLoop i rem b signal =
        (((extractPasses i).foldl
          (fun (st : Buffer × Signal × Nat) (j : Nat) => extractBody j st.2.2 st.1 st.2.1)
          (b, signal, rem)).1,
         ((extractPasses i).foldl
          (fun (st : Buffer × Signal × Nat) (j : Nat) => extractBody j st.2.2 st.1 st.2.1)
          (b, signal, rem)).2.1) := by
  intro i
  induction i with
  | zero => intro rem b signal; rfl
  | succ i ih =>
    intro rem b signal
    rw [extractLoop, extractPasses, List.foldl_cons, ih]

theorem extractLoop_overflow_of_first :
    ∀ (i rem : Nat) (b : Buffer) (s : Signal), b.size ≤ (i + s.position) % SIZE_MOD →
      (extractLoop i rem b s).1.mStatus = Status.Overflow := by
  intro i rem b s h
  have h1 : (extractBody i rem b s).1.mStatus = Status.Overflow := by
    rw [extractBody_fst]
    simp only [readAt, index_of_ge h]
  cases i with
  | zero => exact h1
  | succ i =>
    rw [extractLoop]
    exact extractLoop_status _ _ _ _ h1

/-- When the first pass of the loop of `operator>>` is out of range, the status
after the extraction is `Overflow`. -/
theorem extract_overflow_of_first (b : Buffer) (s : Signal)
    (h : b.size ≤ (decrement s.sizeInBuffer + s.position) % SIZE_MOD) :
    (b.extract s).1.status = Status.Overflow := by
  unfold extract status
  exact extractLoop_overflow_of_first _ _ _ _ h

end Buffer

theorem ext_getD {l1 l2 : List Nat} (hlen : l1.length = l2.length)
    (h : ∀ j : Nat, l1.getD j 0 = l2.getD j 0) : l1 = l2 := by
  apply List.ext_getElem hlen
  intro j h1 h2
  have := h j
  rwa [List.getD_eq_getElem _ _ h1, List.getD_eq_getElem _ _ h2] at this

/-- A byte split by the insertion at shift `L` (carry `a << L` in the next
window byte, `a >> R` in its own) is put together again by the extraction. -/
theorem byte_roundtrip (L R a e c : Nat) (hL : 1 ≤ L) (hL8 : L < 8) (hLR : L + R = 8)
    (ha : a < 256) (he : e < 256) (hc : c % 2 ^ L = 0) :
    castU8 ((castU8 (a <<< L) ||| castU8 (e >>> R)) >>> L) |||
      castU8 ((c ||| castU8 (a >>> R)) <<< R) = a := by
  have hR : R = 8 - L := by omega
  subst hR
  simp only [castU8, Nat.shiftLeft_eq, Nat.shiftRight_eq_div_pow]
  interval_cases L
  all_goals
    simp only [Nat.reduceSub, Nat.reducePow] at hc ⊢
    first
    | (rw [lor_eq_add 1 (a * 2 % 256) _ (by omega) (by omega),
          lor_eq_add 1 c _ (by omega) (by omega), Nat.lor_comm,
          lor_eq_add 7 _ _ (by omega) (by omega)]; omega)
    | (rw [lor_eq_add 2 (a * 4 % 256) _ (by omega) (by omega),
          lor_eq_add 2 c _ (by omega) (by omega), Nat.lor_comm,
          lor_eq_add 6 _ _ (by omega) (by omega)]; omega)
    | (rw [lor_eq_add 3 (a * 8 % 256) _ (by omega) (by omega),
          lor_eq_add 3 c _ (by omega) (by omega), Nat.lor_comm,
          lor_eq_add 5 _ _ (by omega) (by omega)]; omega)
    | (rw [lor_eq_add 4 (a * 16 % 256) _ (by omega) (by omega),
          lor_eq_add 4 c _ (by omega) (by omega), Nat.lor_comm,
          lor_eq_add 4 _ _ (by omega) (by omega)]; omega)
    | (rw [lor_eq_add 5 (a * 32 % 256) _ (by omega) (by omega),
          lor_eq_add 5 c _ (by omega) (by omega), Nat.lor_comm,
          lor_eq_add 3 _ _ (by omega) (by omega)]; omega)
    | (rw [lor_eq_add 6 (a * 64 % 256) _ (by omega) (by omega),
          lor_eq_add 6 c _ (by omega) (by omega), Nat.lor_comm,
          lor_eq_add 2 _ _ (by omega) (by omega)]; omega)
    | (rw [lor_eq_add 7 (a * 128 % 256) _ (by omega) (by omega),
          lor_eq_add 7 c _ (by omega) (by omega), Nat.lor_comm,
          lor_eq_add 1 _ _ (by omega) (by omega)]; omega)

/-- The last byte the insertion writes keeps what the extraction needs when
its low `R` bits are zero. -/
theorem byte_roundtrip_last (L R a c : Nat) (hL : 1 ≤ L) (hL8 : L < 8) (hLR : L + R = 8)
    (ha : a < 256) (hc : c % 2 ^ L = 0) (hlow : a % 2 ^ R = 0) :
    castU8 ((c ||| castU8 (a >>> R)) <<< R) = a := by
  have hR : R = 8 - L := by omega
  subst hR
  simp only [castU8, Nat.shiftLeft_eq, Nat.shiftRight_eq_div_pow]
  interval_cases L
  all_goals
    simp only [Nat.reduceSub, Nat.reducePow] at hc hlow ⊢
    first
    | (rw [lor_eq_add 1 c _ (by omega) (by omega)]; omega)
    | (rw [lor_eq_add 2 c _ (by omega) (by omega)]; omega)
    | (rw [lor_eq_add 3 c _ (by omega) (by omega)]; omega)
    | (rw [lor_eq_add 4 c _ (by omega) (by omega)]; omega)
    | (rw [lor_eq_add 5 c _ (by omega) (by omega)]; omega)
    | (rw [lor_eq_add 6 c _ (by omega) (by omega)]; omega)
    | (rw [lor_eq_add 7 c _ (by omega) (by omega)]; omega)

theorem low_bits_zero (v k s t : Nat) (h : s + t ≤ k) (ht : t ≤ 8) :
    (v * 2 ^ k / 2 ^ s % 256) % 2 ^ t = 0 := by
  have e : v * 2 ^ k = v * 2 ^ (k - s - t) * 2 ^ t * 2 ^ s := by
    rw [Nat.mul_assoc, Nat.mul_assoc, ← Nat.pow_add, ← Nat.pow_add]
    congr 2
    omega
  have hd : 2 ^ t ∣ 256 := by
    have : (256 : Nat) = 2 ^ 8 := by norm_num
    rw [this]
    exact Nat.pow_dvd_pow 2 ht
  rw [e, Nat.mul_div_cancel _ (Nat.pos_pow_of_pos _ (by decide)), Nat.mod_mod_of_dvd _ hd]
  exact Nat.mul_mod_left _ _

theorem mul_pow_lt (v B w : Nat) (hB : B ≤ w) (hv : v < 2 ^ B) : v * 2 ^ (w - B) < 2 ^ w := by
  have hw : 2 ^ w = 2 ^ B * 2 ^ (w - B) := by
    rw [← Nat.pow_add]; congr 1; omega
  rw [hw]
  exact Nat.mul_lt_mul_of_pos_right hv (Nat.pos_pow_of_pos _ (by decide))

/-- Bytes of the storage after `write(v)`: byte `j` is byte `sizeof(T)-1-j` of
the word `v << bitMaskShift()`; `read` then gives `v` back. -/
theorem write_bytes (s : Signal) (v : Nat)
    (hT : s.T = Ty.u8 ∨ s.T = Ty.u16 ∨ s.T = Ty.u32)
    (hlen : s.mData.length = s.T.sizeof) (h2 : s.BitSize ≤ 8 * s.T.sizeof)
    (hv : v < 2 ^ s.BitSize) :
    ∃ s1 : Signal, s.write v = some s1 ∧ s1.T = s.T ∧ s1.BitPos = s.BitPos ∧
      s1.BitSize = s.BitSize ∧ s1.mData.length = s.T.sizeof ∧ s1.read = some v ∧
      ∀ j : Nat, j < s.T.sizeof →
        s1.mData.getD j 0 =
          v * 2 ^ (8 * s.T.sizeof - s.BitSize) / 2 ^ (8 * (s.T.sizeof - 1 - j)) % 256 := by
  have hX := mul_pow_lt v s.BitSize (8 * s.T.sizeof) h2 hv
  rcases hT with hT | hT | hT
  · refine ⟨s.write_u8 v, by simp only [Signal.write, hT], rfl, rfl, rfl, ?_, ?_, ?_⟩
    · simp only [Signal.write_u8, List.length_set, hlen]
    · have hT2 : (s.write_u8 v).T = Ty.u8 := hT
      simp only [Signal.read, hT2]
      rw [read_write_u8 s v hT hlen h2, Nat.mod_eq_of_lt hv]
    · intro j hj
      rw [hT] at hlen h2 hj hX
      simp only [Ty.sizeof] at hlen h2 hj hX
      have hj0 : j = 0 := by omega
      subst hj0
      simp only [Signal.write_u8, Signal.bitMaskShift, hT, Ty.sizeof, U08_BIT_COUNT, getD_set,
        hlen, castU8, Nat.shiftLeft_eq]
      simp
  · refine ⟨s.write_u16 v, by simp only [Signal.write, hT], rfl, rfl, rfl, ?_, ?_, ?_⟩
    · simp only [Signal.write_u16, u16ToArray, List.length_set, hlen]
    · have hT2 : (s.write_u16 v).T = Ty.u16 := hT
      simp only [Signal.read, hT2]
      rw [read_write_u16 s v hT hlen h2, Nat.mod_eq_of_lt hv]
    · intro j hj
      rw [hT] at hlen h2 hj hX
      simp only [Ty.sizeof] at hlen h2 hj hX
      simp only [Signal.write_u16, Signal.bitMaskShift, hT, Ty.sizeof, U08_BIT_COUNT, u16ToArray,
        getD_set, List.length_set, hlen, castU16, Nat.shiftLeft_eq, u16ToU08H, u16ToU08L,
        U08_BIT_MASK, land_255, castU8, castU32, Nat.shiftRight_eq_div_pow]
      have hj' : j = 0 ∨ j = 1 := by omega
      rcases hj' with hj' | hj' <;> subst hj' <;> simp <;> omega
  · refine ⟨s.write_u32 v, by simp only [Signal.write, hT], rfl, rfl, rfl, ?_, ?_, ?_⟩
    · simp only [Signal.write_u32, u32ToArray, List.length_set, hlen]
    · have hT2 : (s.write_u32 v).T = Ty.u32 := hT
      simp only [Signal.read, hT2]
      rw [read_write_u32 s v hT hlen h2, Nat.mod_eq_of_lt hv]
    · intro j hj
      rw [hT] at hlen h2 hj hX
      simp only [Ty.sizeof] at hlen h2 hj hX
      have hc : castU32 (v <<< (4 * 8 - s.BitSize)) = v * 2 ^ (8 * 4 - s.BitSize) := by
        simp only [castU32, Nat.shiftLeft_eq]
        exact Nat.mod_eq_of_lt hX
      obtain ⟨b3, b2, b1, b0⟩ := u32_bytes _ hX
      simp only [Signal.write_u32, Signal.bitMaskShift, hT, Ty.sizeof, U08_BIT_COUNT, hc,
        u32ToArray, getD_set, List.length_set, hlen, b3, b2, b1, b0]
      have hj' : j = 0 ∨ j = 1 ∨ j = 2 ∨ j = 3 := by omega
      rcases hj' with hj' | hj' | hj' | hj' <;> subst hj' <;> simp

namespace Buffer

/-- Window byte `j` after insertion into a buffer whose bytes are zero. -/
theorem insert_window (b : Buffer) (s : Signal) (hn : 1 ≤ s.sizeInBuffer)
    (hfit : s.position + s.sizeInBuffer ≤ b.size)
    (hb0 : ∀ j : Nat, b.mBuffer.getD j 0 = 0) (j : Nat) (hj : j < s.sizeInBuffer) :
    (b.insert s).mBuffer.getD (j + s.position) 0 =
      (if j = 0 then 0
        else if s.writeLShift ≠ 0 then castU8 (insertSrc s (j - 1) <<< s.writeLShift)
        else 0) ||| castU8 (insertSrc s j >>> s.writeRShift) := by
  rw [insert_eq_insertIter, max_eq_right hn,
    insertIter_getD_inside s _ _ 0 0 b (by omega) (by omega) (by omega), hb0, Nat.zero_or]
  have e1 : j + s.position - s.position = j := by omega
  rw [e1]
  by_cases h0 : j = 0
  · rw [if_pos h0, if_pos (by omega)]
  · rw [if_neg h0, if_neg (by omega)]

theorem carry_low_zero (L x j : Nat) (hL8 : L < 8) :
    (if j = 0 then 0 else if L ≠ 0 then castU8 (x <<< L) else 0) % 2 ^ L = 0 := by
  by_cases h0 : j = 0
  · rw [if_pos h0]; exact Nat.zero_mod _
  · rw [if_neg h0]
    by_cases hL : L ≠ 0
    · rw [if_pos hL]
      simp only [castU8, Nat.shiftLeft_eq]
      exact mul_pow_mod_pow x L 8 (by omega)
    · rw [if_neg hL]; exact Nat.zero_mod _

/-- Insertion into a zeroed buffer followed by extraction into a zeroed signal
of the same shape gives the storage bytes back, when the bytes past the window
and the low bits the window cuts off are zero. -/
theorem roundtrip_bytes (b : Buffer) (s t : Signal)
    (hT : t.T = s.T) (hP : t.BitPos = s.BitPos) (hS : t.BitSize = s.BitSize)
    (ht : t.mData = List.replicate s.T.sizeof 0)
    (hlen : s.mData.length = s.T.sizeof) (hbytes : ∀ x ∈ s.mData, x < 256)
    (hn : 1 ≤ s.sizeInBuffer)
    (hfit : s.position + s.sizeInBuffer ≤ b.size) (hsize : b.size < SIZE_MOD)
    (hb0 : ∀ j : Nat, b.mBuffer.getD j 0 = 0)
    (hA : ∀ j : Nat, s.sizeInBuffer ≤ j → j < s.T.sizeof → s.mData.getD j 0 = 0)
    (hB : s.sizeInBuffer ≤ s.T.sizeof →
      s.mData.getD (s.sizeInBuffer - 1) 0 % 2 ^ s.writeRShift = 0) :
    ((b.insert s).extract t).2.mData = s.mData ∧
      ((b.insert s).extract t).2.T = s.T ∧
      ((b.insert s).extract t).2.BitSize = t.BitSize ∧
      ((b.insert s).extract t).1 = b.insert s ∧
      (b.insert s).mStatus = b.mStatus := by
  obtain ⟨gpos, gR, gL, _, _⟩ := geometry_of_bitPos hP
  have hRL : s.readRShift = s.writeLShift := rfl
  have hLR : s.readLShift = s.writeRShift := rfl
  have hL8 : s.writeLShift < 8 := by
    simp only [Signal.writeLShift, U08_BIT_COUNT]; omega
  have hgeo : (s.writeLShift = 0 ∧ s.writeRShift = 0) ∨
      (1 ≤ s.writeLShift ∧ s.writeLShift + s.writeRShift = 8) := by
    simp only [Signal.writeRShift, Signal.writeLShift, U08_BIT_COUNT]; omega
  have htlen : t.mData.length = s.T.sizeof := by rw [ht, List.length_replicate]
  have hbsz : (b.insert s).size = b.size := by rw [insert_eq_insertIter, insertIter_size]
  have hnt : t.sizeInBuffer = s.sizeInBuffer := by
    simp only [Signal.sizeInBuffer, Signal.BYTE_SIZE, Signal.BIT_OFFSET, Signal.typeBitSize,
      hT, hP, hS]
  have hdec : decrement t.sizeInBuffer = s.sizeInBuffer - 1 := by
    unfold decrement
    rw [if_neg (by rw [hnt]; omega), hnt]
  have hsrc : ∀ j : Nat, insertSrc s j < 256 := insertSrc_lt s hbytes
  have hsrcd : ∀ j : Nat, j < s.T.sizeof → insertSrc s j = s.mData.getD j 0 := by
    intro j hj
    rw [insertSrc_eq, if_pos hj]
  obtain ⟨hb, eT, _, eS, elen, hget⟩ :=
    extractLoop_inside (s.sizeInBuffer - 1) 0 (b.insert s) t
      (by rw [gpos, hbsz]; omega) (by rw [gpos]; omega)
  refine ⟨?_, ?_, ?_, ?_, ?_⟩
  · unfold extract
    rw [hdec]
    apply ext_getD
    · rw [elen, htlen, hlen]
    · intro j
      rw [hget, hT, htlen, gpos, gR, gL, hRL, hLR, ht, getD_replicate_zero, Nat.zero_or]
      by_cases hjt : j < s.T.sizeof
      · by_cases hjn : j ≤ s.sizeInBuffer - 1
        · rw [if_pos ⟨hjn, hjt, hjt⟩, insert_window b s hn hfit hb0 j (by omega),
            ← hsrcd j hjt]
          by_cases hlast : j = s.sizeInBuffer - 1
          · rw [if_pos hlast, Nat.zero_or]
            rcases hgeo with ⟨g1, g2⟩ | ⟨g1, g2⟩
            · have hg : ¬ s.writeLShift ≠ 0 := fun h => h g1
              simp only [if_neg hg, ite_self, Nat.zero_or, g2, Nat.shiftRight_zero,
                Nat.shiftLeft_zero, castU8]
              rw [Nat.mod_mod]
              exact Nat.mod_eq_of_lt (hsrc j)
            · have hlow : insertSrc s j % 2 ^ s.writeRShift = 0 := by
                rw [hsrcd j hjt, hlast]
                exact hB (by omega)
              exact byte_roundtrip_last _ _ _ _ g1 hL8 g2 (hsrc j)
                (carry_low_zero _ _ j hL8) hlow
          · rw [if_neg hlast, insert_window b s hn hfit hb0 (j + 1) (by omega)]
            rcases hgeo with ⟨g1, g2⟩ | ⟨g1, g2⟩
            · have hg : ¬ s.writeLShift ≠ 0 := fun h => h g1
              simp only [if_neg hg, ite_self, Nat.zero_or, g2, Nat.shiftRight_zero,
                Nat.shiftLeft_zero, castU8]
              rw [Nat.mod_mod]
              exact Nat.mod_eq_of_lt (hsrc j)
            · have hg : s.writeLShift ≠ 0 := by omega
              have hj1 : ¬ j + 1 = 0 := by omega
              rw [if_pos hg, if_neg hj1, if_pos hg, Nat.add_sub_cancel]
              exact byte_roundtrip _ _ _ _ _ g1 hL8 g2 (hsrc j) (hsrc (j + 1))
                (carry_low_zero _ _ j hL8)
        · have hneg : ¬ (j ≤ s.sizeInBuffer - 1 ∧ j < s.T.sizeof ∧ j < s.T.sizeof) :=
            fun h => hjn h.1
          rw [if_neg hneg, hA j (by omega) hjt]
      · have hneg : ¬ (j ≤ s.sizeInBuffer - 1 ∧ j < s.T.sizeof ∧ j < s.T.sizeof) :=
          fun h => hjt h.2.1
        rw [if_neg hneg, List.getD_eq_default _ _ (by omega)]
  · unfold extract
    rw [hdec]
    exact eT.trans hT
  · unfold extract
    rw [hdec]
    exact eS
  · unfold extract
    rw [hdec]
    exact hb
  · rw [insert_eq_insertIter, max_eq_right hn]
    exact insertIter_status_inside s _ 0 0 b (by omega)

end Buffer

theorem forall_mem_of_getD {l : List Nat} (h : ∀ j : Nat, j < l.length → l.getD j 0 < 256) :
    ∀ x ∈ l, x < 256 := by
  intro x hx
  obtain ⟨i, hi, rfl⟩ := List.mem_iff_getElem.mp hx
  have := h i hi
  rwa [List.getD_eq_getElem _ _ hi] at this

/-! ## The claims on parity, the conversions, the closed forms and the round trip -/

/-- Claim C21: for every 32-bit `x`, `parity(x, Even)` is the number of set bits
of `x` modulo 2; in particular it is 0 when `x` has an even number of set
bits. -/
theorem parity_even_is_bit_count_parity (x : Nat) (hx : x < 2 ^ 32) :
    parity x Parity.Even = popCount32 x % 2 ∧
      (popCount32 x % 2 = 0 → parity x Parity.Even = 0) := by
  have h := parity_eq x hx Parity.Even
  simp only [Parity.toNat, Nat.add_zero] at h
  exact ⟨h, fun h0 => by rw [h, h0]⟩

/-- Instance of the theorem for claim C21 at a concrete input. -/
theorem parity_even_is_bit_count_parity_witness :
    (0x0F0F : Nat) < 2 ^ 32 ∧
      (parity 0x0F0F Parity.Even = popCount32 0x0F0F % 2 ∧
        (popCount32 0x0F0F % 2 = 0 → parity 0x0F0F Parity.Even = 0)) :=
  ⟨by decide, parity_even_is_bit_count_parity 0x0F0F (by decide)⟩

/-- Claim C22: for every 32-bit `x`, `parity(x, Odd) = 1 - parity(x, Even)`, and
both results are 0 or 1. -/
theorem parity_odd_complements_even (x : Nat) (hx : x < 2 ^ 32) :
    parity x Parity.Odd = 1 - parity x Parity.Even ∧
      parity x Parity.Odd ≤ 1 ∧ parity x Parity.Even ≤ 1 := by
  have he := parity_eq x hx Parity.Even
  have ho := parity_eq x hx Parity.Odd
  simp only [Parity.toNat] at he ho
  omega

/-- Instance of the theorem for claim C22 at a concrete input. -/
theorem parity_odd_complements_even_witness :
    (0x0F0E : Nat) < 2 ^ 32 ∧
      (parity 0x0F0E Parity.Odd = 1 - parity 0x0F0E Parity.Even ∧
        parity 0x0F0E Parity.Odd ≤ 1 ∧ parity 0x0F0E Parity.Even ≤ 1) :=
  ⟨by decide, parity_odd_complements_even 0x0F0E (by decide)⟩

/-- Claim C23: `toU16(u16ToU08H(w), u16ToU08L(w)) = w` for every 16-bit `w`, and
`u16ToU08H(toU16(h, l)) = h`, `u16ToU08L(toU16(h, l)) = l` for all bytes `h`,
`l`; in the test case `0x3C5A` has high byte `0x3C` and low byte `0x5A`. -/
theorem u16_split_join_inverse (w h l : Nat) (hw : w < 2 ^ 16) (hh : h < 2 ^ 8)
    (hl : l < 2 ^ 8) :
    toU16 (u16ToU08H w) (u16ToU08L w) = w ∧
      u16ToU08H (toU16 h l) = h ∧ u16ToU08L (toU16 h l) = l ∧
      u16ToU08H 0x3C5A = 0x3C ∧ u16ToU08L 0x3C5A = 0x5A ∧ toU16 0x3C 0x5A = 0x3C5A :=
  ⟨toU16_split w hw, u16ToU08H_toU16 h l hh hl, u16ToU08L_toU16 h l hh hl,
    by decide, by decide, by decide⟩

/-- Instance of the theorem for claim C23 at a concrete input. -/
theorem u16_split_join_inverse_witness :
    ((0x3C5A : Nat) < 2 ^ 16 ∧ (0x3C : Nat) < 2 ^ 8 ∧ (0x5A : Nat) < 2 ^ 8) ∧
      toU16 (u16ToU08H 0x3C5A) (u16ToU08L 0x3C5A) = 0x3C5A :=
  ⟨by decide, (u16_split_join_inverse 0x3C5A 0x3C 0x5A (by decide) (by decide) (by decide)).1⟩

/-- Claim C24: `toU32(u32ToU16H(d), u32ToU16L(d)) = d` for every 32-bit `d`, and
`u32ToU16H(toU32(h, l)) = h`, `u32ToU16L(toU32(h, l)) = l` for all 16-bit `h`,
`l`; in the test case `0x91733C5A` has high half `0x9173` and low half
`0x3C5A`. -/
theorem u32_split_join_inverse (d h l : Nat) (hd : d < 2 ^ 32) (hh : h < 2 ^ 16)
    (hl : l < 2 ^ 16) :
    toU32_u16 (u32ToU16H d) (u32ToU16L d) = d ∧
      u32ToU16H (toU32_u16 h l) = h ∧ u32ToU16L (toU32_u16 h l) = l ∧
      u32ToU16H 0x91733C5A = 0x9173 ∧ u32ToU16L 0x91733C5A = 0x3C5A ∧
      toU32_u16 0x9173 0x3C5A = 0x91733C5A := by
  refine ⟨?_, ?_, ?_, by decide, by decide, by decide⟩
  · rw [toU32_u16_eq _ _ (u32ToU16H_lt d) (u32ToU16L_lt d)]
    simp only [u32ToU16H, u32ToU16L, U16_BIT_MASK, U16_BIT_COUNT, land_65535, castU16,
      Nat.shiftRight_eq_div_pow]
    omega
  · rw [toU32_u16_eq h l hh hl]
    simp only [u32ToU16H, U16_BIT_COUNT, castU16, Nat.shiftRight_eq_div_pow]
    omega
  · rw [toU32_u16_eq h l hh hl]
    simp only [u32ToU16L, U16_BIT_MASK, land_65535, castU16]
    omega

/-- Instance of the theorem for claim C24 at a concrete input. -/
theorem u32_split_join_inverse_witness :
    ((0x91733C5A : Nat) < 2 ^ 32 ∧ (0x9173 : Nat) < 2 ^ 16 ∧ (0x3C5A : Nat) < 2 ^ 16) ∧
      toU32_u16 (u32ToU16H 0x91733C5A) (u32ToU16L 0x91733C5A) = 0x91733C5A :=
  ⟨by decide,
    (u32_split_join_inverse 0x91733C5A 0x9173 0x3C5A (by decide) (by decide) (by decide)).1⟩

/-- Claim C25: insertion closed form.  With `n = sizeInBuffer() >= 1` and
`position() + n <= Size`, after `operator<<` the buffer byte at
`position() + i`, for every `i < n`, is `old OR carry(i) OR (src(i) >> R)`,
where `src(i)` is `S[i]` for `i < typeSize()` and 0 otherwise, `carry(0) = 0`
and `carry(i) = (src(i-1) << L) mod 256` if `L != 0`, else 0; `L` and `R` lie
in `0..7`.  The storage bytes are `uint8_t` values. -/
theorem insert_closed_form (b : Buffer) (signal : Signal) (i : Nat)
    (hn : 1 ≤ signal.sizeInBuffer)
    (hfit : signal.position + signal.sizeInBuffer ≤ b.size)
    (hbytes : ∀ x ∈ signal.mData, x < 256)
    (hi : i < signal.sizeInBuffer) :
    (b.insert signal).mBuffer.getD (signal.position + i) 0 =
        b.mBuffer.getD (signal.position + i) 0 ||| Buffer.insertCarry signal i |||
          (Buffer.insertSrc signal i >>> signal.writeRShift) ∧
      signal.writeLShift < 8 ∧ signal.writeRShift < 8 := by
  refine ⟨?_, ?_, ?_⟩
  · rw [Buffer.insert_eq_insertIter,
      Buffer.insertIter_getD_inside signal _ _ 0 0 b (by omega) (by omega) (by omega)]
    have e1 : signal.position + i - signal.position = i := by omega
    have hsrc := insertSrc_lt signal hbytes i
    have hshift : castU8 (Buffer.insertSrc signal i >>> signal.writeRShift) =
        Buffer.insertSrc signal i >>> signal.writeRShift := by
      have hle : Buffer.insertSrc signal i >>> signal.writeRShift ≤
          Buffer.insertSrc signal i := by
        rw [Nat.shiftRight_eq_div_pow]
        exact Nat.div_le_self _ _
      exact Nat.mod_eq_of_lt (Nat.lt_of_le_of_lt hle hsrc)
    rw [e1, hshift, Nat.lor_assoc]
    congr 2
    unfold Buffer.insertCarry
    by_cases h0 : i = 0
    · have : signal.position + i = 0 + signal.position := by omega
      rw [if_pos this, if_pos h0]
    · have : ¬ signal.position + i = 0 + signal.position := by omega
      rw [if_neg this, if_neg h0]
      rfl
  · simp only [Signal.writeLShift, U08_BIT_COUNT]; omega
  · simp only [Signal.writeRShift, Signal.writeLShift, U08_BIT_COUNT]; omega

/-- Instance of the theorem for claim C25 at a concrete input. -/
theorem insert_closed_form_witness :
    (1 ≤ (Signal.mk Ty.u16 12 10 0 [0xAB, 0xC0]).sizeInBuffer ∧
      (Signal.mk Ty.u16 12 10 0 [0xAB, 0xC0]).position +
        (Signal.mk Ty.u16 12 10 0 [0xAB, 0xC0]).sizeInBuffer ≤
          (Buffer.mk 0 Status.Ok [0x01, 0x80, 0x02, 0x00]).size ∧
      (∀ x ∈ (Signal.mk Ty.u16 12 10 0 [0xAB, 0xC0]).mData, x < 256) ∧
      1 < (Signal.mk Ty.u16 12 10 0 [0xAB, 0xC0]).sizeInBuffer) ∧
    ((Buffer.mk 0 Status.Ok [0x01, 0x80, 0x02, 0x00]).insert
        (Signal.mk Ty.u16 12 10 0 [0xAB, 0xC0])).mBuffer.getD
          ((Signal.mk Ty.u16 12 10 0 [0xAB, 0xC0]).position + 1) 0 =
      (Buffer.mk 0 Status.Ok [0x01, 0x80, 0x02, 0x00]).mBuffer.getD
          ((Signal.mk Ty.u16 12 10 0 [0xAB, 0xC0]).position + 1) 0 |||
        Buffer.insertCarry (Signal.mk Ty.u16 12 10 0 [0xAB, 0xC0]) 1 |||
        (Buffer.insertSrc (Signal.mk Ty.u16 12 10 0 [0xAB, 0xC0]) 1 >>>
          (Signal.mk Ty.u16 12 10 0 [0xAB, 0xC0]).writeRShift) :=
  ⟨by decide,
    (insert_closed_form (Buffer.mk 0 Status.Ok [0x01, 0x80, 0x02, 0x00])
      (Signal.mk Ty.u16 12 10 0 [0xAB, 0xC0]) 1 (by decide) (by decide) (by decide)
      (by decide)).1⟩

/-- Claim C26: extraction closed form.  With `n = sizeInBuffer() >= 1` and
`position() + n <= Size`, after `operator>>` every signal byte `S[i]` with
`i < min(n, typeSize())` is `old OR carry(i) OR ((buf[position()+i] << L) mod 256)`,
where `carry(n-1) = 0` and `carry(i) = buf[position()+i+1] >> R` if `R != 0`,
else 0; every signal byte with index `>= n` is unchanged; `L` and `R` lie in
`0..7`.  `Size` is a `std::size_t` value, the storage is the array
`mData[sizeof(T)]` and the buffer bytes are `uint8_t` values. -/
theorem extract_closed_form (b : Buffer) (signal : Signal)
    (hn : 1 ≤ signal.sizeInBuffer)
    (hfit : signal.position + signal.sizeInBuffer ≤ b.size)
    (hsize : b.size < SIZE_MOD)
    (hlen : signal.mData.length = signal.T.sizeof)
    (hbytes : ∀ x ∈ b.mBuffer, x < 256) :
    (∀ i : Nat, i < min signal.sizeInBuffer signal.typeSize →
        (b.extract signal).2.mData.getD i 0 =
          signal.mData.getD i 0 ||| Buffer.extractCarry b signal i |||
            ((b.mBuffer.getD (signal.position + i) 0 <<< signal.readLShift) % 256)) ∧
      (∀ i : Nat, signal.sizeInBuffer ≤ i →
        (b.extract signal).2.mData.getD i 0 = signal.mData.getD i 0) ∧
      signal.readLShift < 8 ∧ signal.readRShift < 8 := by
  have hdec : decrement signal.sizeInBuffer = signal.sizeInBuffer - 1 := by
    unfold decrement
    rw [if_neg (by omega)]
  obtain ⟨_, _, _, _, _, hget⟩ :=
    Buffer.extractLoop_inside (signal.sizeInBuffer - 1) 0 b signal (by omega) (by omega)
  refine ⟨fun i hi => ?_, fun i hi => ?_, ?_, ?_⟩
  · have hi1 : i < signal.sizeInBuffer := lt_of_lt_of_le hi (min_le_left _ _)
    have hi2 : i < signal.T.sizeof := lt_of_lt_of_le hi (min_le_right _ _)
    unfold Buffer.extract
    rw [hdec, hget, if_pos ⟨by omega, hi2, by omega⟩, Nat.lor_assoc]
    congr 1
    have e1 : i + signal.position = signal.position + i := Nat.add_comm _ _
    have e2 : i + 1 + signal.position = signal.position + i + 1 := by omega
    rw [e1, e2]
    congr 1
    unfold Buffer.extractCarry
    have hb := getD_lt_of_forall _ hbytes (signal.position + i + 1)
    have hshift : castU8 (b.mBuffer.getD (signal.position + i + 1) 0 >>> signal.readRShift) =
        b.mBuffer.getD (signal.position + i + 1) 0 >>> signal.readRShift := by
      have hle : b.mBuffer.getD (signal.position + i + 1) 0 >>> signal.readRShift ≤
          b.mBuffer.getD (signal.position + i + 1) 0 := by
        rw [Nat.shiftRight_eq_div_pow]
        exact Nat.div_le_self _ _
      exact Nat.mod_eq_of_lt (Nat.lt_of_le_of_lt hle hb)
    by_cases hl : i + 1 = signal.sizeInBuffer
    · rw [if_pos hl, if_pos (by omega)]
    · rw [if_neg hl, if_neg (by omega), hshift]
  · unfold Buffer.extract
    rw [hdec, hget, if_neg (by omega)]
  · simp only [Signal.readLShift, Signal.readRShift, U08_BIT_COUNT]; omega
  · simp only [Signal.readRShift, U08_BIT_COUNT]; omega

/-- Instance of the theorem for claim C26 at a concrete input. -/
theorem extract_closed_form_witness :
    (1 ≤ (Signal.mk Ty.u16 12 10 0 [0x00, 0x01]).sizeInBuffer ∧
      (Signal.mk Ty.u16 12 10 0 [0x00, 0x01]).position +
        (Signal.mk Ty.u16 12 10 0 [0x00, 0x01]).sizeInBuffer ≤
          (Buffer.mk 0 Status.Ok [0x01, 0x15, 0x78, 0xFF]).size ∧
      (Buffer.mk 0 Status.Ok [0x01, 0x15, 0x78, 0xFF]).size < SIZE_MOD ∧
      (Signal.mk Ty.u16 12 10 0 [0x00, 0x01]).mData.length =
        (Signal.mk Ty.u16 12 10 0 [0x00, 0x01]).T.sizeof ∧
      (∀ x ∈ (Buffer.mk 0 Status.Ok [0x01, 0x15, 0x78, 0xFF]).mBuffer, x < 256) ∧
      0 < min (Signal.mk Ty.u16 12 10 0 [0x00, 0x01]).sizeInBuffer
        (Signal.mk Ty.u16 12 10 0 [0x00, 0x01]).typeSize) ∧
    ((Buffer.mk 0 Status.Ok [0x01, 0x15, 0x78, 0xFF]).extract
        (Signal.mk Ty.u16 12 10 0 [0x00, 0x01])).2.mData.getD 0 0 =
      (Signal.mk Ty.u16 12 10 0 [0x00, 0x01]).mData.getD 0 0 |||
        Buffer.extractCarry (Buffer.mk 0 Status.Ok [0x01, 0x15, 0x78, 0xFF])
          (Signal.mk Ty.u16 12 10 0 [0x00, 0x01]) 0 |||
        (((Buffer.mk 0 Status.Ok [0x01, 0x15, 0x78, 0xFF]).mBuffer.getD
          ((Signal.mk Ty.u16 12 10 0 [0x00, 0x01]).position + 0) 0 <<<
            (Signal.mk Ty.u16 12 10 0 [0x00, 0x01]).readLShift) % 256) :=
  ⟨by decide,
    (extract_closed_form (Buffer.mk 0 Status.Ok [0x01, 0x15, 0x78, 0xFF])
      (Signal.mk Ty.u16 12 10 0 [0x00, 0x01]) (by decide) (by decide) (by decide) (by decide)
      (by decide)).1 0 (by decide)⟩

/-- Claim C27, evaluated where the loops do not make `sizeInBuffer()` passes.
`Signal<uint8_t, 0, 0>` has `sizeInBuffer() = 0`, yet for such a signal holding
`0xFF` the `do` loop of `operator<<` makes one pass, which sets bit 0 of byte 0
of a zeroed one-byte buffer, and the loop of `operator>>`, whose first `i--`
wraps, makes `2^64` passes, the first of them out of range, so the status
becomes `Overflow`. -/
theorem zero_size_signal_pass_counts :
    (Signal.mk Ty.u8 0 0 0 [0xFF]).sizeInBuffer = 0 ∧
      Buffer.insertPasses (Signal.mk Ty.u8 0 0 0 [0xFF]) 0 = [0] ∧
      ((Buffer.ctor 1).insert (Signal.mk Ty.u8 0 0 0 [0xFF])).mBuffer = [1] ∧
      (Buffer.extractPasses (decrement (Signal.mk Ty.u8 0 0 0 [0xFF]).sizeInBuffer)).length =
        2 ^ 64 ∧
      ((Buffer.ctor 1).extract (Signal.mk Ty.u8 0 0 0 [0xFF])).1.status = Status.Overflow := by
  have h0 : (Signal.mk Ty.u8 0 0 0 [0xFF]).sizeInBuffer = 0 := by decide
  have hS : SIZE_MOD = 2 ^ 64 := rfl
  have hS2 : 2 ≤ SIZE_MOD := by decide
  have e1 : decrement (Signal.mk Ty.u8 0 0 0 [0xFF]).sizeInBuffer = SIZE_MOD - 1 := by
    rw [h0]
    unfold decrement
    rw [if_pos rfl]
  have h1 : Buffer.insertPasses (Signal.mk Ty.u8 0 0 0 [0xFF]) 0 = [0] := by
    rw [Buffer.insertPasses, if_neg (by rw [h0]; omega)]
  have h2 : (Buffer.extractPasses
      (decrement (Signal.mk Ty.u8 0 0 0 [0xFF]).sizeInBuffer)).length = 2 ^ 64 := by
    rw [Buffer.extractPasses_length, e1, ← hS]
    omega
  have h3 : ((Buffer.ctor 1).insert (Signal.mk Ty.u8 0 0 0 [0xFF])).mBuffer = [1] := by
    rw [Buffer.insert_eq_insertIter]
    decide
  have h4 : (Buffer.ctor 1).size ≤
      (decrement (Signal.mk Ty.u8 0 0 0 [0xFF]).sizeInBuffer +
        (Signal.mk Ty.u8 0 0 0 [0xFF]).position) % SIZE_MOD := by
    have e2 : (Signal.mk Ty.u8 0 0 0 [0xFF]).position = 0 := by decide
    have e3 : (Buffer.ctor 1).size = 1 := by decide
    rw [e1, e2, e3, Nat.add_zero, Nat.mod_eq_of_lt (by omega)]
    omega
  exact ⟨h0, h1, h3, h2, Buffer.extract_overflow_of_first _ _ h4⟩

/-- The pass count where the loops meet it: for `n = sizeInBuffer() >= 1`,
`operator<<` is its loop body run at `i = 0, ..., n-1` and `operator>>` is its
loop body run at `i = n-1, ..., 0`, so each makes exactly `n` passes. -/
theorem passes_eq_sizeInBuffer (b : Buffer) (signal : Signal) (hn : 1 ≤ signal.sizeInBuffer) :
    (b.insert signal =
        ((Buffer.insertPasses signal 0).foldl
          (fun (st : Buffer × Nat) (j : Nat) => Buffer.insertBody signal j st.2 st.1) (b, 0)).1 ∧
      Buffer.insertPasses signal 0 = List.range signal.sizeInBuffer ∧
      (Buffer.insertPasses signal 0).length = signal.sizeInBuffer) ∧
    (b.extract signal =
        (((Buffer.extractPasses (decrement signal.sizeInBuffer)).foldl
          (fun (st : Buffer × Signal × Nat) (j : Nat) =>
            Buffer.extractBody j st.2.2 st.1 st.2.1) (b, signal, 0)).1,
         ((Buffer.extractPasses (decrement signal.sizeInBuffer)).foldl
          (fun (st : Buffer × Signal × Nat) (j : Nat) =>
            Buffer.extractBody j st.2.2 st.1 st.2.1) (b, signal, 0)).2.1) ∧
      Buffer.extractPasses (decrement signal.sizeInBuffer) =
        (List.range signal.sizeInBuffer).reverse ∧
      (Buffer.extractPasses (decrement signal.sizeInBuffer)).length = signal.sizeInBuffer) := by
  have hdec : decrement signal.sizeInBuffer + 1 = signal.sizeInBuffer := by
    unfold decrement
    rw [if_neg (by omega)]
    omega
  have hi : Buffer.insertPasses signal 0 = List.range signal.sizeInBuffer := by
    rw [Buffer.insertPasses_eq signal (signal.sizeInBuffer - 1) 0 (by omega),
      List.range_eq_range']
    congr 1
    omega
  refine ⟨⟨Buffer.insertLoop_eq_foldl signal _ 0 0 b rfl, hi, ?_⟩,
    Buffer.extractLoop_eq_foldl _ 0 b signal, ?_, ?_⟩
  · rw [hi, List.length_range]
  · rw [Buffer.extractPasses_eq, hdec]
  · rw [Buffer.extractPasses_length, hdec]

/-- Instance of the pass count at `Signal<uint16_t, 4, 12>`. -/
theorem passes_eq_sizeInBuffer_witness :
    1 ≤ (Signal.ctor Ty.u16 4 12).sizeInBuffer ∧
      Buffer.insertPasses (Signal.ctor Ty.u16 4 12) 0 = [0, 1] ∧
      Buffer.extractPasses (decrement (Signal.ctor Ty.u16 4 12).sizeInBuffer) = [1, 0] :=
  ⟨by decide,
    (passes_eq_sizeInBuffer (Buffer.ctor 4) (Signal.ctor Ty.u16 4 12) (by decide)).1.2.1,
    (passes_eq_sizeInBuffer (Buffer.ctor 4) (Signal.ctor Ty.u16 4 12) (by decide)).2.2.1⟩

/-- Claim C28: for a `Signal<bool, BitPos>`, `write(b)` stores
`reflect(uint8(b))` in storage byte 0, which is `0x80` for `true` and `0x00`
for `false`; `read` gives `true` exactly when bit 7 of storage byte 0 is set;
so `read` after `write(b)` gives `b`. -/
theorem bool_field_write_read (s : Signal) (value : Bool) (hT : s.T = Ty.bool)
    (hlen : s.mData.length = s.T.sizeof) :
    (s.write_bool value).mData.getD 0 0 = reflect value.toNat ∧
      (s.write_bool value).mData.getD 0 0 = (if value then 0x80 else 0x00) ∧
      s.read_bool = (s.mData.getD 0 0).testBit 7 ∧
      (s.write_bool value).read_bool = value := by
  rw [hT] at hlen
  simp only [Ty.sizeof] at hlen
  have hw : (s.write_bool value).mData.getD 0 0 = reflect value.toNat := by
    simp only [Signal.write_bool, getD_set, hlen]
    cases value <;> simp [castU8]
  have hr : ∀ t : Signal, t.read_bool = (t.mData.getD 0 0).testBit 7 := by
    intro t
    simp only [Signal.read_bool]
    have h80 : (0x80 : Nat) = 128 := rfl
    rw [h80, land_128]
    cases (t.mData.getD 0 0).testBit 7 <;> decide
  refine ⟨hw, ?_, hr s, ?_⟩
  · rw [hw]
    cases value <;> decide
  · rw [hr, hw]
    cases value <;> decide

/-- Instance of the theorem for claim C28 at a concrete input. -/
theorem bool_field_write_read_witness :
    ((Signal.ctor Ty.bool 3 1).T = Ty.bool ∧
        (Signal.ctor Ty.bool 3 1).mData.length = (Signal.ctor Ty.bool 3 1).T.sizeof) ∧
      ((Signal.ctor Ty.bool 3 1).write_bool true).read_bool = true :=
  ⟨by decide,
    (bool_field_write_read (Signal.ctor Ty.bool 3 1) true (by decide) (by decide)).2.2.2⟩

/-- Claim C29 (little-endian host build): for every 32-bit `x`, `u32ToArray(x)`
fills the array with `data[k] = (x >> (8*(3-k))) AND 0xFF`, `k = 0..3`;
`arrayToU32(u32ToArray(x)) = x`; and `u32ToArray(arrayToU32(a)) = a` for every
array `a` of four bytes. -/
theorem u32_array_marshalling (x a0 a1 a2 a3 : Nat) (data : List Nat) (hx : x < 2 ^ 32)
    (hdata : data.length = 4) (h0 : a0 < 256) (h1 : a1 < 256) (h2 : a2 < 256)
    (h3 : a3 < 256) :
    u32ToArray x data =
        [(x >>> (8 * (3 - 0))) &&& 0xFF, (x >>> (8 * (3 - 1))) &&& 0xFF,
          (x >>> (8 * (3 - 2))) &&& 0xFF, (x >>> (8 * (3 - 3))) &&& 0xFF] ∧
      arrayToU32 (u32ToArray x data) = x ∧
      u32ToArray (arrayToU32 [a0, a1, a2, a3]) data = [a0, a1, a2, a3] := by
  obtain ⟨d0, d1, d2, d3, hd⟩ : ∃ d0 d1 d2 d3, data = [d0, d1, d2, d3] := by
    match hm : data, hdata with
    | [d0, d1, d2, d3], _ => exact ⟨d0, d1, d2, d3, rfl⟩
  have hset : ∀ y : Nat, u32ToArray y data =
      [u16ToU08H (u32ToU16H y), u16ToU08L (u32ToU16H y),
        u16ToU08H (u32ToU16L y), u16ToU08L (u32ToU16L y)] := by
    intro y
    rw [hd]
    rfl
  refine ⟨?_, ?_, ?_⟩
  · obtain ⟨e3, e2, e1, e0⟩ := u32_bytes x hx
    rw [hset, e3, e2, e1, e0]
    have hFF : (0xFF : Nat) = 255 := rfl
    simp only [hFF, land_255, Nat.shiftRight_eq_div_pow]
    have c0 : x / 2 ^ (8 * (3 - 0)) % 256 = x / 16777216 % 256 := by
      norm_num
    have c1 : x / 2 ^ (8 * (3 - 1)) % 256 = x / 65536 % 256 := by
      norm_num
    have c2 : x / 2 ^ (8 * (3 - 2)) % 256 = x / 256 % 256 := by
      norm_num
    have c3 : x / 2 ^ (8 * (3 - 3)) % 256 = x % 256 := by
      norm_num
    rw [c0, c1, c2, c3]
  · rw [arrayToU32_u32ToArray x data hdata]
    exact toU32_split x hx
  · have hy : arrayToU32 [a0, a1, a2, a3] = a0 * 16777216 + a1 * 65536 + a2 * 256 + a3 := by
      simp only [arrayToU32, List.getD_cons_zero, List.getD_cons_succ]
      exact toU32_eq a0 a1 a2 a3 h0 h1 h2 h3
    have hlt : arrayToU32 [a0, a1, a2, a3] < 2 ^ 32 := by
      rw [hy]; omega
    obtain ⟨e3, e2, e1, e0⟩ := u32_bytes _ hlt
    rw [hset, e3, e2, e1, e0, hy]
    have f0 : (a0 * 16777216 + a1 * 65536 + a2 * 256 + a3) / 16777216 % 256 = a0 := by omega
    have f1 : (a0 * 16777216 + a1 * 65536 + a2 * 256 + a3) / 65536 % 256 = a1 := by omega
    have f2 : (a0 * 16777216 + a1 * 65536 + a2 * 256 + a3) / 256 % 256 = a2 := by omega
    have f3 : (a0 * 16777216 + a1 * 65536 + a2 * 256 + a3) % 256 = a3 := by omega
    rw [f0, f1, f2, f3]

/-- Instance of the theorem for claim C29 at a concrete input. -/
theorem u32_array_marshalling_witness :
    ((0x91733C5A : Nat) < 2 ^ 32 ∧ [0, 0, 0, 0].length = 4 ∧ (0x91 : Nat) < 256 ∧
      (0x73 : Nat) < 256 ∧ (0x3C : Nat) < 256 ∧ (0x5A : Nat) < 256) ∧
    u32ToArray 0x91733C5A [0, 0, 0, 0] = [0x91, 0x73, 0x3C, 0x5A] ∧
    arrayToU32 (u32ToArray 0x91733C5A [0, 0, 0, 0]) = 0x91733C5A ∧
    u32ToArray (arrayToU32 [0x91, 0x73, 0x3C, 0x5A]) [0, 0, 0, 0] = [0x91, 0x73, 0x3C, 0x5A] :=
  ⟨by decide,
    u32_array_marshalling 0x91733C5A 0x91 0x73 0x3C 0x5A [0, 0, 0, 0] (by decide) (by decide)
      (by decide) (by decide) (by decide) (by decide)⟩

/-- Claim C30: for `T` one of `uint8_t`, `uint16_t`, `uint32_t`,
`BitPos mod 8 >= 4`, `1 <= BitSize <= 8 * sizeof(T)` and `v < 2^BitSize`:
`write(v)`, insertion into a zero-cleared buffer with
`position() + sizeInBuffer() <= Size`, extraction into a cleared signal of the
same shape and `read` give `v`, and the buffer status is `Ok` after the
insertion and after the extraction.  `Size` is a `std::size_t` value and the
storage is the array `mData[sizeof(T)]`. -/
theorem roundtrip_upper_half (b : Buffer) (s : Signal) (v : Nat)
    (hT : s.T = Ty.u8 ∨ s.T = Ty.u16 ∨ s.T = Ty.u32)
    (hlen : s.mData.length = s.T.sizeof)
    (hoff : 4 ≤ s.BitPos % 8)
    (h1 : 1 ≤ s.BitSize) (h2 : s.BitSize ≤ 8 * s.T.sizeof)
    (hv : v < 2 ^ s.BitSize)
    (hfit : s.position + s.sizeInBuffer ≤ b.size) (hsize : b.size < SIZE_MOD) :
    (s.write v).bind (fun s1 => ((b.clear.insert s1).extract s.clear).2.read) = some v ∧
      (s.write v).map (fun s1 => (b.clear.insert s1).status) = some Status.Ok ∧
      (s.write v).map (fun s1 => ((b.clear.insert s1).extract s.clear).1.status) =
        some Status.Ok := by
  obtain ⟨s1, hw, eT, eP, eS, elen, eread, ebytes⟩ := write_bytes s v hT hlen h2 hv
  have hts : s.T.sizeof = 1 ∨ s.T.sizeof = 2 ∨ s.T.sizeof = 4 := by
    rcases hT with h | h | h <;> rw [h] <;> simp [Ty.sizeof]
  have hnb : s.T ≠ Ty.bool := by
    rcases hT with h | h | h <;> rw [h] <;> decide
  have hn : s.sizeInBuffer = (s.BitPos % 8 + s.BitSize + 7) / 8 := by
    simp only [Signal.sizeInBuffer, Signal.BYTE_SIZE, Signal.BIT_OFFSET, Signal.typeBitSize,
      Signal.BIT_MAX_POS, U08_BIT_COUNT, SIZE_MOD, if_neg hnb]
    rw [Nat.mod_eq_of_lt (by omega)]
  have hn1 : s1.sizeInBuffer = s.sizeInBuffer := by
    simp only [Signal.sizeInBuffer, Signal.BYTE_SIZE, Signal.BIT_OFFSET, Signal.typeBitSize,
      eT, eP, eS]
  have hp1 : s1.position = s.position := by simp only [Signal.position, eP]
  have hR : s1.writeRShift = (8 - (s.BitPos + 1) % 8) % 8 := by
    simp only [Signal.writeRShift, Signal.writeLShift, U08_BIT_COUNT, eP]
  have hlt : ∀ j : Nat, j < s1.mData.length → s1.mData.getD j 0 < 256 := by
    intro j hj
    rw [ebytes j (by omega)]
    exact Nat.mod_lt _ (by decide)
  have hcsize : b.clear.size = b.size := by
    simp only [Buffer.clear, Buffer.size, List.length_replicate]
  obtain ⟨r1, r2, r3, r4, r5⟩ :=
    Buffer.roundtrip_bytes b.clear s1 s.clear eT.symm eP.symm eS.symm
      (by rw [eT]; rfl) (by rw [eT]; exact elen) (forall_mem_of_getD hlt)
      (by rw [hn1, hn]; omega)
      (by rw [hn1, hp1, hcsize]; exact hfit) (by rw [hcsize]; exact hsize)
      (fun j => getD_replicate_zero _ j)
      (by
        intro j hj1 hj2
        rw [hn1, hn] at hj1
        rw [eT] at hj2
        have h0 := low_bits_zero v (8 * s.T.sizeof - s.BitSize) (8 * (s.T.sizeof - 1 - j)) 8
          (by omega) (by omega)
        rw [← ebytes j hj2] at h0
        have := hlt j (by omega)
        have e8 : (2 : Nat) ^ 8 = 256 := by norm_num
        rw [e8] at h0
        omega)
      (by
        intro hle
        rw [hn1, eT] at hle
        rw [hn1, hR]
        have hpos : 1 ≤ s.sizeInBuffer := by rw [hn]; omega
        have h0 := low_bits_zero v (8 * s.T.sizeof - s.BitSize)
          (8 * (s.T.sizeof - 1 - (s.sizeInBuffer - 1))) ((8 - (s.BitPos + 1) % 8) % 8)
          (by rw [hn] at hle hpos ⊢; omega) (by omega)
        rw [← ebytes _ (by omega)] at h0
        exact h0)
  have hread : ((b.clear.insert s1).extract s.clear).2.read = s1.read := by
    have hT' : ((b.clear.insert s1).extract s.clear).2.T = s1.T := r2
    have hS' : ((b.clear.insert s1).extract s.clear).2.BitSize = s1.BitSize := r3.trans eS.symm
    simp only [Signal.read, Signal.read_u8, Signal.read_u16, Signal.read_u32,
      Signal.bitMaskShift, hT', hS', r1]
  refine ⟨?_, ?_, ?_⟩
  · rw [hw, Option.bind, hread, eread]
  · rw [hw, Option.map, Buffer.status, r5]
    rfl
  · rw [hw, Option.map, Buffer.status, r4, r5]
    rfl

/-- Instance of the theorem for claim C30 at a concrete input. -/
theorem roundtrip_upper_half_witness :
    (((Signal.ctor Ty.u32 13 21).T = Ty.u8 ∨ (Signal.ctor Ty.u32 13 21).T = Ty.u16 ∨
        (Signal.ctor Ty.u32 13 21).T = Ty.u32) ∧
      (Signal.ctor Ty.u32 13 21).mData.length = (Signal.ctor Ty.u32 13 21).T.sizeof ∧
      4 ≤ (Signal.ctor Ty.u32 13 21).BitPos % 8 ∧
      1 ≤ (Signal.ctor Ty.u32 13 21).BitSize ∧
      (Signal.ctor Ty.u32 13 21).BitSize ≤ 8 * (Signal.ctor Ty.u32 13 21).T.sizeof ∧
      (0x1ABCDE : Nat) < 2 ^ (Signal.ctor Ty.u32 13 21).BitSize ∧
      (Signal.ctor Ty.u32 13 21).position + (Signal.ctor Ty.u32 13 21).sizeInBuffer ≤
        (Buffer.ctor 8).size ∧
      (Buffer.ctor 8).size < SIZE_MOD) ∧
    ((Signal.ctor Ty.u32 13 21).write 0x1ABCDE).bind
        (fun s1 => (((Buffer.ctor 8).clear.insert s1).extract
          (Signal.ctor Ty.u32 13 21).clear).2.read) = some 0x1ABCDE :=
  ⟨by decide,
    (roundtrip_upper_half (Buffer.ctor 8) (Signal.ctor Ty.u32 13 21) 0x1ABCDE (by decide)
      (by decide) (by decide) (by decide) (by decide) (by decide) (by decide) (by decide)).1⟩

/-! ## Auxiliary facts for the overflow status, the insertion order and the bits read -/

namespace Buffer

/-- When the last of `k + 1` passes of the insertion loop is out of range, the
status after them is `Overflow`. -/
theorem insertIter_status_outside (signal : Signal) :
    ∀ (k i rem : Nat) (b : Buffer), b.size < i + (k + 1) + signal.position →
      (insertIter signal (k + 1) i rem b).mStatus = Status.Overflow := by
  intro k
  induction k with
  | zero =>
    intro i rem b h
    rw [insertIter, insertIter, insertBody_fst, orAt_status, if_neg (by omega)]
  | succ k ih =>
    intro i rem b h
    rw [insertIter]
    by_cases h1 : i + signal.position < b.size
    · have hsz : (insertBody signal i rem b).1.size = b.size := by
        rw [insertBody_fst, orAt_size]
      exact ih _ _ _ (by rw [hsz]; omega)
    · apply insertIter_status
      rw [insertBody_fst, orAt_status, if_neg h1]

theorem orAt_comm (b : Buffer) (p x q y : Nat) :
    (b.orAt p x).orAt q y = (b.orAt q y).orAt p x := by
  by_cases hp : p < b.size <;> by_cases hq : q < b.size
  · have hq2 : q < (b.orAt p x).size := by rw [orAt_size]; exact hq
    have hp2 : p < (b.orAt q y).size := by rw [orAt_size]; exact hp
    rw [orAt_of_lt y hq2, orAt_of_lt x hp2, orAt_of_lt x hp, orAt_of_lt y hq]
    have hp' : p < b.mBuffer.length := hp
    have hq' : q < b.mBuffer.length := hq
    simp only [getD_set, Buffer.mk.injEq, true_and]
    apply ext_getD
    · simp only [List.length_set]
    · intro j
      simp only [getD_set, List.length_set, hp', hq', and_true]
      by_cases hpq : q = p
      · subst hpq
        simp only [if_true]
        by_cases hj : j = q
        · simp only [hj, if_true, Nat.lor_assoc, Nat.lor_comm x y]
        · simp only [hj, if_false]
      · have hqp : ¬ p = q := fun h => hpq h.symm
        simp only [hpq, hqp, if_false]
        by_cases hj : j = q
        · subst hj
          simp only [if_true, hpq, if_false]
        · simp only [hj, if_false]
  · have hq2 : (b.orAt p x).size ≤ q := by rw [orAt_size]; omega
    have hp2 : p < (b.orAt q y).size := by rw [orAt_size]; exact hp
    rw [orAt_of_ge y hq2, orAt_of_lt x hp2, orAt_of_lt x hp, orAt_of_ge y (by omega)]
  · have hq2 : q < (b.orAt p x).size := by rw [orAt_size]; exact hq
    have hp2 : (b.orAt q y).size ≤ p := by rw [orAt_size]; omega
    rw [orAt_of_lt y hq2, orAt_of_ge x hp2, orAt_of_ge x (by omega), orAt_of_lt y hq]
  · have hq2 : (b.orAt p x).size ≤ q := by rw [orAt_size]; omega
    have hp2 : (b.orAt q y).size ≤ p := by rw [orAt_size]; omega
    rw [orAt_of_ge y hq2, orAt_of_ge x hp2, orAt_of_ge x (by omega), orAt_of_ge y (by omega)]
    simp only [Nat.lor_assoc, Nat.lor_comm x y]

/-- An OR-assignment to a buffer cell commutes with passes of the insertion
loop: what a pass ORs in does not depend on the buffer. -/
theorem insertIter_orAt (signal : Signal) (p x : Nat) :
    ∀ (k i rem : Nat) (b : Buffer),
      insertIter signal k i rem (b.orAt p x) = (insertIter signal k i rem b).orAt p x := by
  intro k
  induction k with
  | zero => intro i rem b; rfl
  | succ k ih =>
    intro i rem b
    rw [insertIter, insertIter, insertBody_fst, insertBody_snd, insertBody_fst, insertBody_snd,
      orAt_comm, ih]

theorem insertIter_comm (s t : Signal) (k2 i2 rem2 : Nat) :
    ∀ (k i rem : Nat) (b : Buffer),
      insertIter s k i rem (insertIter t k2 i2 rem2 b) =
        insertIter t k2 i2 rem2 (insertIter s k i rem b) := by
  intro k
  induction k with
  | zero => intro i rem b; rfl
  | succ k ih =>
    intro i rem b
    rw [insertIter, insertIter, insertBody_fst, insertBody_snd, insertBody_fst, insertBody_snd,
      ← insertIter_orAt, ih]

theorem insertIter_idem (s : Signal) :
    ∀ (k i rem : Nat) (b : Buffer),
      insertIter s k i rem (insertIter s k i rem b) = insertIter s k i rem b := by
  intro k
  induction k with
  | zero => intro i rem b; rfl
  | succ k ih =>
    intro i rem b
    rw [insertIter, insertIter, insertBody_fst, insertBody_snd, insertBody_fst, insertBody_snd,
      ← insertIter_orAt, orAt_orAt, Nat.or_self, ih]

end Buffer

theorem land_31 (x : Nat) : x &&& 31 = x % 32 :=
  Nat.and_pow_two_sub_one_eq_mod x 5

set_option maxRecDepth 1000000 in
theorem land_254_all : ∀ x < 256, x &&& 254 = x / 2 * 2 := by
  decide!

/-- Value read from `Signal<uint16_t, 4, 12>` after extraction from a buffer of
four bytes into the cleared signal. -/
theorem extract_read_u16_bitpos4_bitsize12 (a0 a1 a2 a3 o : Nat) (st : Status)
    (h1 : a1 < 256) :
    ((Buffer.mk o st [a0, a1, a2, a3]).extract (Signal.ctor Ty.u16 4 12).clear).2.read =
      some (a0 % 32 * 128 + a1 / 2) := by
  simp only [Signal.ctor, Signal.clear, Buffer.extract, Signal.sizeInBuffer, Signal.BYTE_SIZE,
    Signal.BIT_OFFSET, Signal.typeBitSize, Signal.BIT_MAX_POS, SIZE_MOD, U08_BIT_COUNT]
  simp [Buffer.extractLoop, Buffer.extractBody_fst, Buffer.extractBody_snd_fst,
    Buffer.extractBody_snd_snd, decrement,
    Signal.bitMaskShift, Ty.sizeof, U08_BIT_COUNT, SIZE_MOD,
    Signal.typeSize, Signal.index, Signal.load,
    Signal.position, Buffer.index, Buffer.size, Buffer.store,
    Buffer.load, Buffer.readAt, Signal.readLShift, Signal.readRShift, Signal.orAt, Signal.store,
    Signal.read, Signal.read_u16, arrayToU16]
  have hX : castU8 (a1 >>> 5) ||| castU8 (a0 <<< 3) = a0 % 32 * 8 + a1 / 32 := by
    simp only [castU8, Nat.shiftLeft_eq, Nat.shiftRight_eq_div_pow]
    rw [Nat.lor_comm, lor_eq_add 3 _ _ (by omega) (by omega)]
    omega
  have hY : castU8 (a1 <<< 3) = a1 % 32 * 8 := by
    simp only [castU8, Nat.shiftLeft_eq]
    omega
  rw [hX, hY, toU16_eq _ _ (by omega) (by omega)]
  simp only [castU16, Nat.shiftRight_eq_div_pow]
  omega

/-! ## The claims on the overflow status, the insertion order and the bits read -/

/-- Claim C31: for a signal with `sizeInBuffer() >= 1` and a buffer whose status
is `Ok`, the status after `operator<<` is `Overflow` exactly when
`position() + sizeInBuffer() > Size`, and `Ok` otherwise; `Signal<uint8_t, 7, 8>`
has `sizeInBuffer() = 2`, so inserting it into a `Buffer<1>` sets `Overflow`. -/
theorem insert_overflow_iff_out_of_range (b : Buffer) (signal : Signal)
    (hn : 1 ≤ signal.sizeInBuffer) (hok : b.status = Status.Ok) :
    ((b.insert signal).status = Status.Overflow ↔
        b.size < signal.position + signal.sizeInBuffer) ∧
      (signal.position + signal.sizeInBuffer ≤ b.size →
        (b.insert signal).status = Status.Ok) ∧
      (Signal.ctor Ty.u8 7 8).sizeInBuffer = 2 ∧
      ((Buffer.ctor 1).insert (Signal.ctor Ty.u8 7 8)).status = Status.Overflow := by
  have hin : signal.position + signal.sizeInBuffer ≤ b.size →
      (b.insert signal).status = Status.Ok := by
    intro h
    rw [Buffer.insert_eq_insertIter, max_eq_right hn]
    unfold Buffer.status at hok ⊢
    rw [Buffer.insertIter_status_inside signal _ 0 0 b (by omega)]
    exact hok
  have hout : b.size < signal.position + signal.sizeInBuffer →
      (b.insert signal).status = Status.Overflow := by
    intro h
    rw [Buffer.insert_eq_insertIter, max_eq_right hn]
    obtain ⟨k, hk⟩ : ∃ k, signal.sizeInBuffer = k + 1 :=
      ⟨signal.sizeInBuffer - 1, by omega⟩
    rw [hk]
    exact Buffer.insertIter_status_outside signal k 0 0 b (by omega)
  refine ⟨⟨fun h => ?_, hout⟩, hin, by decide, ?_⟩
  · by_cases hc : b.size < signal.position + signal.sizeInBuffer
    · exact hc
    · rw [hin (by omega)] at h
      exact absurd h (by decide)
  · rw [Buffer.insert_eq_insertIter]
    decide

/-- Instance of the theorem for claim C31 at a concrete input. -/
theorem insert_overflow_iff_out_of_range_witness :
    (1 ≤ (Signal.ctor Ty.u16 12 12).sizeInBuffer ∧ (Buffer.ctor 2).status = Status.Ok) ∧
      (((Buffer.ctor 2).insert (Signal.ctor Ty.u16 12 12)).status = Status.Overflow ↔
        (Buffer.ctor 2).size <
          (Signal.ctor Ty.u16 12 12).position + (Signal.ctor Ty.u16 12 12).sizeInBuffer) :=
  ⟨by decide,
    (insert_overflow_iff_out_of_range (Buffer.ctor 2) (Signal.ctor Ty.u16 12 12) (by decide)
      (by decide)).1⟩

/-- Claim C32: inserting `A` then `B` leaves the buffer in the same state as
inserting `B` then `A`, and inserting `A` twice leaves the same state as
inserting it once.  The state is the whole object: the bytes, the status and
the overrun cell. -/
theorem insert_order_irrelevant (b : Buffer) (A B : Signal) :
    (b.insert A).insert B = (b.insert B).insert A ∧ (b.insert A).insert A = b.insert A := by
  simp only [Buffer.insert_eq_insertIter]
  exact ⟨Buffer.insertIter_comm _ _ _ _ _ _ _ _ _, Buffer.insertIter_idem _ _ _ _ _⟩

/-- Claim C33: for `Signal<uint16_t, 4, 12>` and two buffers of four bytes that
agree on `b[0] AND 0x1F` and on `b[1] AND 0xFE`, extraction into the cleared
signal and `read` give the same value, which is made of those twelve bits
only.  The buffer bytes are `uint8_t` values. -/
theorem extract_read_ignores_other_bits (b1 b2 : Buffer)
    (hs1 : b1.size = 4) (hs2 : b2.size = 4)
    (hb1 : ∀ x ∈ b1.mBuffer, x < 256) (hb2 : ∀ x ∈ b2.mBuffer, x < 256)
    (h0 : b1.mBuffer.getD 0 0 &&& 0x1F = b2.mBuffer.getD 0 0 &&& 0x1F)
    (h1 : b1.mBuffer.getD 1 0 &&& 0xFE = b2.mBuffer.getD 1 0 &&& 0xFE) :
    (b1.extract (Signal.ctor Ty.u16 4 12).clear).2.read =
        (b2.extract (Signal.ctor Ty.u16 4 12).clear).2.read ∧
      (b1.extract (Signal.ctor Ty.u16 4 12).clear).2.read =
        some ((b1.mBuffer.getD 0 0 &&& 0x1F) * 128 + (b1.mBuffer.getD 1 0 &&& 0xFE) / 2) := by
  obtain ⟨o1, st1, l1⟩ := b1
  obtain ⟨o2, st2, l2⟩ := b2
  simp only [Buffer.size] at hs1 hs2
  obtain ⟨a0, a1, a2, a3, rfl⟩ : ∃ a0 a1 a2 a3, l1 = [a0, a1, a2, a3] := by
    match l1, hs1 with
    | [a0, a1, a2, a3], _ => exact ⟨a0, a1, a2, a3, rfl⟩
  obtain ⟨c0, c1, c2, c3, rfl⟩ : ∃ c0 c1 c2 c3, l2 = [c0, c1, c2, c3] := by
    match l2, hs2 with
    | [c0, c1, c2, c3], _ => exact ⟨c0, c1, c2, c3, rfl⟩
  have ha1 : a1 < 256 := hb1 a1 (by simp)
  have hc1 : c1 < 256 := hb2 c1 (by simp)
  simp only [List.getD_cons_zero, List.getD_cons_succ] at h0 h1 ⊢
  have e31 : (0x1F : Nat) = 31 := rfl
  have e254 : (0xFE : Nat) = 254 := rfl
  rw [e31, land_31, land_31] at h0
  rw [e254, land_254_all a1 ha1, land_254_all c1 hc1] at h1
  rw [extract_read_u16_bitpos4_bitsize12 a0 a1 a2 a3 o1 st1 ha1,
    extract_read_u16_bitpos4_bitsize12 c0 c1 c2 c3 o2 st2 hc1, e31, e254, land_31,
    land_254_all a1 ha1]
  refine ⟨?_, ?_⟩
  · congr 1
    omega
  · congr 1
    omega

/-- Instance of the theorem for claim C33 at a concrete input. -/
theorem extract_read_ignores_other_bits_witness :
    ((Buffer.mk 0 Status.Ok [0xF5, 0x79, 0xAA, 0x55]).size = 4 ∧
      (Buffer.mk 0 Status.Ok [0x15, 0x78, 0x00, 0x00]).size = 4 ∧
      (∀ x ∈ (Buffer.mk 0 Status.Ok [0xF5, 0x79, 0xAA, 0x55]).mBuffer, x < 256) ∧
      (∀ x ∈ (Buffer.mk 0 Status.Ok [0x15, 0x78, 0x00, 0x00]).mBuffer, x < 256) ∧
      (Buffer.mk 0 Status.Ok [0xF5, 0x79, 0xAA, 0x55]).mBuffer.getD 0 0 &&& 0x1F =
        (Buffer.mk 0 Status.Ok [0x15, 0x78, 0x00, 0x00]).mBuffer.getD 0 0 &&& 0x1F ∧
      (Buffer.mk 0 Status.Ok [0xF5, 0x79, 0xAA, 0x55]).mBuffer.getD 1 0 &&& 0xFE =
        (Buffer.mk 0 Status.Ok [0x15, 0x78, 0x00, 0x00]).mBuffer.getD 1 0 &&& 0xFE) ∧
    ((Buffer.mk 0 Status.Ok [0xF5, 0x79, 0xAA, 0x55]).extract
        (Signal.ctor Ty.u16 4 12).clear).2.read =
      ((Buffer.mk 0 Status.Ok [0x15, 0x78, 0x00, 0x00]).extract
        (Signal.ctor Ty.u16 4 12).clear).2.read :=
  ⟨by decide,
    (extract_read_ignores_other_bits (Buffer.mk 0 Status.Ok [0xF5, 0x79, 0xAA, 0x55])
      (Buffer.mk 0 Status.Ok [0x15, 0x78, 0x00, 0x00]) (by decide) (by decide) (by decide)
      (by decide) (by decide) (by decide)).1⟩

end bit
